import Mathlib

/-!
Verification of the modorganizer-exporter plugin core logic.

The Python source is shallowly embedded:
* `pathlib.Path` values become lists of path components (`Path := List String`);
* Python `dict` becomes an insertion-ordered association list whose insert
  replaces the value of an existing key in place and otherwise appends;
* the filesystem is a dict from absolute paths to nodes (directory or file
  with attributes); fallible operations return `Except`;
* Qt progress dialogs are reduced to their observable behaviour: a
  cancellation predicate indexed by the loop iteration, and the progress
  value that the completion message reads back.
-/

deriving instance DecidableEq for Except

namespace MoExporter

/-! ### Python dict model -/

/-- Python `d[k] = v`: replace the value of an existing key in place,
otherwise append the new binding at the end. -/
def dictInsert {K V : Type} [DecidableEq K] : List (K × V) → K → V → List (K × V)
  | [], k, v => [(k, v)]
  | p :: d, k, v => if p.1 = k then (k, v) :: d else p :: dictInsert d k v

/-- Python `d.get(k)`: the value bound to the first occurrence of `k`. -/
def dictLookup {K V : Type} [DecidableEq K] : List (K × V) → K → Option V
  | [], _ => none
  | p :: d, k => if p.1 = k then some p.2 else dictLookup d k

/-- Python `del d[k]` / `Path.unlink`: drop every binding of `k`. -/
def dictErase {K V : Type} [DecidableEq K] : List (K × V) → K → List (K × V)
  | [], _ => []
  | p :: d, k => if p.1 = k then dictErase d k else p :: dictErase d k

/-- The keys of a dict, in insertion order. -/
def dictKeys {K V : Type} (d : List (K × V)) : List K := d.map Prod.fst

theorem dictLookup_dictInsert {K V : Type} [DecidableEq K]
    (d : List (K × V)) (k k' : K) (v : V) :
    dictLookup (dictInsert d k v) k' = if k' = k then some v else dictLookup d k' := by
  induction d with
  | nil =>
    by_cases h : k' = k
    · subst h; simp [dictInsert, dictLookup]
    · simp [dictInsert, dictLookup, h, Ne.symm h]
  | cons p d ih =>
    by_cases hp : p.1 = k
    · by_cases hk : k' = k
      · subst hk; simp [dictInsert, dictLookup, hp]
      · have hq : ¬ p.1 = k' := fun h => hk ((h.symm.trans hp).symm ▸ rfl)
        simp [dictInsert, dictLookup, hp, hk, Ne.symm hk, hq]
    · by_cases hq : p.1 = k'
      · have hk : ¬ k' = k := fun h => hp (hq.trans h)
        simp [dictInsert, dictLookup, hp, hq, hk]
      · simp [dictInsert, dictLookup, hp, hq, ih]

theorem dictLookup_dictErase {K V : Type} [DecidableEq K]
    (d : List (K × V)) (k k' : K) :
    dictLookup (dictErase d k) k' = if k' = k then none else dictLookup d k' := by
  induction d with
  | nil => simp [dictErase, dictLookup]
  | cons p d ih =>
    by_cases hp : p.1 = k
    · by_cases hk : k' = k
      · subst hk; simp [dictErase, dictLookup, hp, ih]
      · simp [dictErase, dictLookup, hp, hk, Ne.symm hk, ih]
    · by_cases hq : p.1 = k'
      · have hk : ¬ k' = k := fun h => hp (hq.trans h)
        simp [dictErase, dictLookup, hp, hq, hk]
      · simp [dictErase, dictLookup, hp, hq, ih]

theorem dictKeys_dictInsert {K V : Type} [DecidableEq K]
    (d : List (K × V)) (k : K) (v : V) :
    dictKeys (dictInsert d k v) =
      if k ∈ dictKeys d then dictKeys d else dictKeys d ++ [k] := by
  induction d with
  | nil => simp [dictInsert, dictKeys]
  | cons p d ih =>
    by_cases hp : p.1 = k
    · simp [dictInsert, dictKeys, hp]
    · by_cases hm : k ∈ dictKeys d
      · simp only [dictKeys] at hm
        simp [dictInsert, dictKeys, hp, hm, Ne.symm hp] at ih ⊢
        exact ih
      · simp only [dictKeys] at hm
        simp [dictInsert, dictKeys, hp, hm, Ne.symm hp] at ih ⊢
        exact ih

theorem nodup_dictKeys_dictInsert {K V : Type} [DecidableEq K]
    {d : List (K × V)} (k : K) (v : V) (h : (dictKeys d).Nodup) :
    (dictKeys (dictInsert d k v)).Nodup := by
  rw [dictKeys_dictInsert]
  by_cases hm : k ∈ dictKeys d
  · simpa [hm] using h
  · simp only [hm, if_false]
    refine List.Nodup.append h (List.nodup_singleton k) ?_
    intro a ha hb
    simp only [List.mem_singleton] at hb
    exact hm (hb ▸ ha)

/-! ### Mods and `collect_mod_file_paths` (`exporter_base.py`) -/

/-- A path, as its list of components. -/
abbrev Path := List String

/-- The data of one `mobase.IModInterface` that `collect_mod_file_paths` reads:
its absolute folder path and the relative paths its file-tree walk yields
(files and directories alike, in walk order). -/
structure Mod where
  absPath : Path
  entries : List Path
deriving DecidableEq, Repr

/-- `Path(mod_abs_path).name`: the final component of the mod folder path. -/
def modFolderName (m : Mod) : String := m.absPath.getLastD ""

/-- The relative path recorded for one walked entry: prefixed with the mod
folder name when `include_mod_folder` is set. -/
def relOf (includeModFolder : Bool) (m : Mod) (e : Path) : Path :=
  if includeModFolder then modFolderName m :: e else e

/-- The body of `mod_tree.walk(mod_tree_walker)`: record every entry of the
mod in `paths`, keyed by its relative path, valued by its absolute path. -/
def insertModEntries (includeModFolder : Bool)
    (paths : List (Path × Path)) (m : Mod) : List (Path × Path) :=
  m.entries.foldl (fun ps e => dictInsert ps (relOf includeModFolder m e) (m.absPath ++ e)) paths

/-- The mod loop of `collect_mod_file_paths` with the progress dialog's
cancellation check: `cancel i` is `progress.wasCanceled()` at the start of
iteration `i`; a fired check returns the empty dict at once. -/
def collectLoop (cancel : Nat → Bool) (includeModFolder : Bool) :
    Nat → List (Path × Path) → List Mod → List (Path × Path)
  | _, paths, [] => paths
  | i, paths, m :: ms =>
    if cancel i then []
    else collectLoop cancel includeModFolder (i + 1) (insertModEntries includeModFolder paths m) ms

/-- `ExporterTool.collect_mod_file_paths` with a progress dialog. -/
def collect_with_cancel (cancel : Nat → Bool) (mods : List Mod)
    (includeModFolder : Bool) : List (Path × Path) :=
  collectLoop cancel includeModFolder 0 [] mods

/-- `ExporterTool.collect_mod_file_paths` when no cancellation fires. -/
def collect_mod_file_paths (mods : List Mod) (includeModFolder : Bool) :
    List (Path × Path) :=
  collect_with_cancel (fun _ => false) mods includeModFolder

/-- The last mod of the sequence (i.e. the highest-priority one) whose walk
produces the relative path `p`, in merged mode. -/
def lastProducer (mods : List Mod) (p : Path) : Option Mod :=
  mods.reverse.find? (fun m => decide (p ∈ m.entries))

theorem collectLoop_no_cancel (includeModFolder : Bool) (mods : List Mod) :
    ∀ (i : Nat) (ps : List (Path × Path)),
      collectLoop (fun _ => false) includeModFolder i ps mods =
        mods.foldl (insertModEntries includeModFolder) ps := by
  induction mods with
  | nil => intro i ps; simp [collectLoop]
  | cons m ms ih => intro i ps; simp [collectLoop, ih]

theorem collect_mod_file_paths_eq_foldl (mods : List Mod) (includeModFolder : Bool) :
    collect_mod_file_paths mods includeModFolder =
      mods.foldl (insertModEntries includeModFolder) [] :=
  collectLoop_no_cancel includeModFolder mods 0 []

theorem dictLookup_insertModEntries (m : Mod) (ps : List (Path × Path)) (p : Path) :
    dictLookup (insertModEntries false ps m) p =
      if p ∈ m.entries then some (m.absPath ++ p) else dictLookup ps p := by
  unfold insertModEntries
  induction m.entries generalizing ps with
  | nil => simp
  | cons e es ih =>
    rw [List.foldl_cons, ih]
    by_cases he : p = e
    · subst he
      by_cases hm : p ∈ es <;>
        simp [dictLookup_dictInsert, relOf, hm]
    · by_cases hm : p ∈ es <;>
        simp [dictLookup_dictInsert, relOf, he, hm]

theorem lastProducer_cons (m : Mod) (ms : List Mod) (p : Path) :
    lastProducer (m :: ms) p =
      (lastProducer ms p).or (if p ∈ m.entries then some m else none) := by
  simp only [lastProducer, List.reverse_cons, List.find?_append]
  by_cases hm : p ∈ m.entries <;> simp [List.find?, hm]

theorem dictLookup_collect_fold (mods : List Mod) (ps : List (Path × Path)) (p : Path) :
    dictLookup (mods.foldl (insertModEntries false) ps) p =
      match lastProducer mods p with
      | some m => some (m.absPath ++ p)
      | none => dictLookup ps p := by
  induction mods generalizing ps with
  | nil => simp [lastProducer]
  | cons m ms ih =>
    rw [List.foldl_cons, ih, lastProducer_cons]
    cases hms : lastProducer ms p with
    | some b => simp [Option.or]
    | none =>
      by_cases hm : p ∈ m.entries <;>
        simp [Option.or, hm, dictLookup_insertModEntries]

/-- Two mod sequences that differ only in the walk order inside each mod's
own tree: equal absolute paths, per-mod entry lists permutations of each
other. -/
def WalkReordered (m m' : Mod) : Prop :=
  m.absPath = m'.absPath ∧ m.entries.Perm m'.entries

theorem lastProducer_congr {mods mods₂ : List Mod} (p : Path)
    (h : List.Forall₂ WalkReordered mods mods₂) :
    (lastProducer mods p).map Mod.absPath = (lastProducer mods₂ p).map Mod.absPath := by
  induction h with
  | nil => rfl
  | @cons a b l₁ l₂ hr hlist ih =>
    rw [lastProducer_cons, lastProducer_cons]
    cases h₁ : lastProducer l₁ p <;> cases h₂ : lastProducer l₂ p <;>
      simp [h₁, h₂, Option.or] at ih ⊢
    · have hmem : p ∈ a.entries ↔ p ∈ b.entries := hr.2.mem_iff
      by_cases hp : p ∈ a.entries
      · simp [hp, hmem.mp hp, hr.1]
      · have hq : p ∉ b.entries := fun hb => hp (hmem.mpr hb)
        simp [hp, hq]
    · exact ih

theorem nodup_dictKeys_insertModEntries (includeModFolder : Bool) (m : Mod)
    (ps : List (Path × Path)) (h : (dictKeys ps).Nodup) :
    (dictKeys (insertModEntries includeModFolder ps m)).Nodup := by
  unfold insertModEntries
  induction m.entries generalizing ps with
  | nil => simpa
  | cons e es ih => exact ih _ (nodup_dictKeys_dictInsert _ _ h)

theorem nodup_dictKeys_collect (mods : List Mod) (includeModFolder : Bool) :
    (dictKeys (collect_mod_file_paths mods includeModFolder)).Nodup := by
  rw [collect_mod_file_paths_eq_foldl]
  have h : ∀ (ps : List (Path × Path)), (dictKeys ps).Nodup →
      (dictKeys (mods.foldl (insertModEntries includeModFolder) ps)).Nodup := by
    induction mods with
    | nil => intro ps hps; simpa
    | cons m ms ih =>
      intro ps hps
      exact ih _ (nodup_dictKeys_insertModEntries includeModFolder m ps hps)
  exact h [] (by simp [dictKeys])

/-! ### C1 -/

/-- Concrete mods for witnesses: `A` walks `f.txt`; `B` walks `f.txt` and
`g.txt`; `B` again with its own walk order reversed. -/
def modA1 : Mod := ⟨["mods", "A"], [["f.txt"]]⟩

def modB1 : Mod := ⟨["mods", "B"], [["f.txt"], ["g.txt"]]⟩

def modB1r : Mod := ⟨["mods", "B"], [["g.txt"], ["f.txt"]]⟩

/-- C1: in merged mode (`include_mod_folder = false`), the map returned by
`collect_mod_file_paths` binds a relative path `p` to the absolute source of
the last-iterated (highest-priority) mod `B` producing `p`; the binding only
depends on which entries each mod's walk yields, not on the walk order inside
each mod's tree; and the map has at most one absolute source per relative
path. -/
theorem c1_collision_last_mod_wins (mods mods₂ : List Mod) (p : Path) (B : Mod)
    (hB : lastProducer mods p = some B)
    (hw : List.Forall₂ WalkReordered mods mods₂) :
    dictLookup (collect_mod_file_paths mods false) p = some (B.absPath ++ p) ∧
    dictLookup (collect_mod_file_paths mods₂ false) p = some (B.absPath ++ p) ∧
    (dictKeys (collect_mod_file_paths mods false)).Nodup := by
  have h₁ : dictLookup (collect_mod_file_paths mods false) p = some (B.absPath ++ p) := by
    rw [collect_mod_file_paths_eq_foldl, dictLookup_collect_fold, hB]
  have hcongr := lastProducer_congr p hw
  rw [hB] at hcongr
  refine ⟨h₁, ?_, nodup_dictKeys_collect mods false⟩
  cases h₂ : lastProducer mods₂ p with
  | none => rw [h₂] at hcongr; simp at hcongr
  | some B₂ =>
    rw [h₂] at hcongr
    have habs : B.absPath = B₂.absPath := by
      simpa using hcongr
    rw [collect_mod_file_paths_eq_foldl, dictLookup_collect_fold, h₂, habs]

/-- Witness for C1: lower-priority `A` and higher-priority `B` both produce
`f.txt`; the resolved map binds it to `B`'s source, in both walk orders. -/
theorem c1_collision_last_mod_wins_witness :
    (lastProducer [modA1, modB1] ["f.txt"] = some modB1 ∧
      List.Forall₂ WalkReordered [modA1, modB1] [modA1, modB1r]) ∧
    (dictLookup (collect_mod_file_paths [modA1, modB1] false) ["f.txt"] =
        some (modB1.absPath ++ ["f.txt"]) ∧
      dictLookup (collect_mod_file_paths [modA1, modB1r] false) ["f.txt"] =
        some (modB1.absPath ++ ["f.txt"]) ∧
      (dictKeys (collect_mod_file_paths [modA1, modB1] false)).Nodup) :=
  ⟨⟨by decide, List.Forall₂.cons ⟨rfl, by decide⟩
      (List.Forall₂.cons ⟨rfl, by decide⟩ List.Forall₂.nil)⟩,
    c1_collision_last_mod_wins [modA1, modB1] [modA1, modB1r] ["f.txt"] modB1 (by decide)
      (List.Forall₂.cons ⟨rfl, by decide⟩
        (List.Forall₂.cons ⟨rfl, by decide⟩ List.Forall₂.nil))⟩

/-! ### Markdown exporter (`markdown_exporter.py`) -/

/-- The data of one mod that `markdown_modlist` reads: `mod.name()`,
`mod.url()`, `mod.nexusId()` and `mod.version().displayString()`.
Python truthiness: a string is truthy iff non-empty, an int iff non-zero. -/
structure MdMod where
  name : String
  url : String
  nexusId : Int
  versionDisplay : String
deriving DecidableEq, Repr

/-- `MarkdownExporter._nexus_mod_url`. -/
def nexus_mod_url (nexusName : String) (modId : Int) : String :=
  "https://nexusmods.com/" ++ nexusName ++ "/mods/" ++ toString modId

/-- One yielded line of `MarkdownExporter.markdown_modlist`, translated
statement by statement from the loop body. -/
def markdownModLine (nexusGameName : String) (m : MdMod) : String :=
  let nameStr := m.name
  let url := m.url
  let url := if url = "" ∧ m.nexusId ≠ 0 then nexus_mod_url nexusGameName m.nexusId else url
  let nameStr := if url ≠ "" then "[" ++ nameStr ++ "](" ++ url ++ ")" else nameStr
  let versionStr :=
    if m.versionDisplay ≠ "" then " v" ++ m.versionDisplay else m.versionDisplay
  "- " ++ nameStr ++ versionStr ++ "\n"

/-- `MarkdownExporter.markdown_modlist`: one line yielded per mod. -/
def markdown_modlist (nexusGameName : String) : List MdMod → List String
  | [] => []
  | m :: ms => markdownModLine nexusGameName m :: markdown_modlist nexusGameName ms

/-- Modelled from the spec's § 4.5 wording, for refinement comparison: link
the name to the explicit URL when present, else to a URL synthesized from
the catalog id when present, else render the bare name; append the version
suffix exactly when the version display string is non-empty. -/
def renderLineFromSpec (nexusGameName : String) (m : MdMod) : String :=
  let base :=
    if m.url ≠ "" then "[" ++ m.name ++ "](" ++ m.url ++ ")"
    else if m.nexusId ≠ 0 then
      "[" ++ m.name ++ "](" ++ nexus_mod_url nexusGameName m.nexusId ++ ")"
    else m.name
  let versioned :=
    if m.versionDisplay ≠ "" then base ++ (" v" ++ m.versionDisplay) else base
  "- " ++ versioned ++ "\n"

theorem nexus_mod_url_ne_empty (g : String) (n : Int) : nexus_mod_url g n ≠ "" := by
  intro h
  have hd := congrArg String.data h
  simp [nexus_mod_url, String.data_append] at hd

theorem markdownModLine_eq_spec (g : String) (m : MdMod) :
    markdownModLine g m = renderLineFromSpec g m := by
  unfold markdownModLine renderLineFromSpec
  by_cases hu : m.url = ""
  · by_cases hn : m.nexusId = 0
    · by_cases hv : m.versionDisplay = "" <;>
        simp [hu, hn, hv, String.append_assoc]
    · by_cases hv : m.versionDisplay = "" <;>
        simp [hu, hn, hv, nexus_mod_url_ne_empty, String.append_assoc]
  · by_cases hv : m.versionDisplay = "" <;>
      simp [hu, hv, String.append_assoc]

/-! ### C8 -/

/-- C8: `markdown_modlist` yields exactly one newline-terminated line per mod
in input order, rendered as the spec describes (explicit URL, else synthesized
catalog URL, else bare name; version suffix exactly when non-empty); in
particular a mod named `Foo` with no URL, no catalog id and version `1.2.3`
yields `- Foo v1.2.3\n`. -/
theorem c8_markdown_rendering (g : String) (mods : List MdMod) :
    markdown_modlist g mods = mods.map (renderLineFromSpec g) ∧
    (markdown_modlist g mods).length = mods.length ∧
    (∀ m : MdMod, ∃ s : String, markdownModLine g m = s ++ "\n") ∧
    markdown_modlist g [⟨"Foo", "", 0, "1.2.3"⟩] = ["- Foo v1.2.3\n"] := by
  have hmap : ∀ ms : List MdMod, markdown_modlist g ms = ms.map (renderLineFromSpec g) := by
    intro ms
    induction ms with
    | nil => rfl
    | cons m ms ih => simp [markdown_modlist, ih, markdownModLine_eq_spec]
  refine ⟨hmap mods, by rw [hmap mods]; simp, fun m => ⟨_, rfl⟩, ?_⟩
  rw [hmap [⟨"Foo", "", 0, "1.2.3"⟩]]
  simp [renderLineFromSpec]

/-! ### Filesystem model -/

/-- Attributes of a source or target file: an abstract content, the
modification time, the permission bits, and the storage volume it lives on. -/
structure FileAttrs where
  content : Nat
  mtime : Nat
  perms : Nat
  volume : Nat
deriving DecidableEq, Repr

/-- A filesystem node: a directory or a file with attributes. -/
inductive FsNode where
  | dir : FsNode
  | file (attrs : FileAttrs) : FsNode
deriving DecidableEq, Repr

/-- A filesystem: a dict from absolute paths to nodes. -/
abbrev Fs := List (Path × FsNode)

/-- Errors raised by filesystem operations: `hardlink_to` across storage
volumes (`OSError: Invalid cross-device link`), and a source path that does
not exist (or is not a regular file) when opened for reading. -/
inductive FsError where
  | crossVolume : FsError
  | missingSource : FsError
deriving DecidableEq, Repr

/-! ### Zip exporter (`zip_exporter.py`) -/

/-- A persisted plugin-setting value (`mobase.MoVariant`). -/
inductive MoVariant where
  | bool (b : Bool)
  | int (n : Int)
  | str (s : String)
  | null
deriving DecidableEq, Repr

/-- The `ZipCompressionMethod` enum of `zip_exporter.py`. -/
inductive ZipCompressionMethod where
  | ZIP_STORED
  | ZIP_DEFLATED
  | ZIP_BZIP2
  | ZIP_LZMA
deriving DecidableEq, Repr

/-- `int(method)`: the `zipfile` module constant behind each member. -/
def ZipCompressionMethod.toInt : ZipCompressionMethod → Int
  | .ZIP_STORED => 0
  | .ZIP_DEFLATED => 8
  | .ZIP_BZIP2 => 12
  | .ZIP_LZMA => 14

/-- `ZipCompressionMethod[name]`: Python enum lookup by member name
(`None` models the raised `KeyError`). -/
def zipCompressionMethodByName (s : String) : Option ZipCompressionMethod :=
  if s = "ZIP_STORED" then some .ZIP_STORED
  else if s = "ZIP_DEFLATED" then some .ZIP_DEFLATED
  else if s = "ZIP_BZIP2" then some .ZIP_BZIP2
  else if s = "ZIP_LZMA" then some .ZIP_LZMA
  else none

/-- Python `str(value)` on a plugin-setting variant. -/
def moVariantStr : MoVariant → String
  | .bool b => if b then "True" else "False"
  | .int n => toString n
  | .str s => s
  | .null => "None"

/-- `ZipExporter._compression` (property getter): enum lookup by the persisted
name; the `KeyError` on an unrecognized name is caught, logged via
`qCritical`, and recovered by returning `ZIP_DEFLATED`. -/
def compression_getter (setting : MoVariant) : ZipCompressionMethod :=
  match zipCompressionMethodByName (moVariantStr setting) with
  | some m => m
  | none => ZipCompressionMethod.ZIP_DEFLATED

/-- Python `isinstance(setting, int)` together with the numeric value it
sees: true for ints and also for bools, since `bool` subclasses `int`
(`True` counts as 1, `False` as 0); `None` for every other variant. -/
def moVariantIntValue : MoVariant → Option Int
  | .int n => some n
  | .bool b => some (if b then 1 else 0)
  | _ => none

/-- `ZipExporter._compression_level` (property getter):
`isinstance(setting, int) and setting > 0` — the persisted value when it is
an int (bool included) strictly greater than 0, else `None`. In particular a
persisted `True` is returned (compresslevel 1), not demoted to the default. -/
def compression_level_getter (setting : MoVariant) : Option Int :=
  match moVariantIntValue setting with
  | some n => if n > 0 then some n else none
  | none => none

/-- One member record of the archive: `zipfile` writes a directory record
(trailing-slash name, no data) for a directory and one file record streaming
the source's bytes for a regular file. -/
inductive ZipRecord where
  | dirRecord (arcname : Path) : ZipRecord
  | fileRecord (arcname : Path) (content : Nat) : ZipRecord
deriving DecidableEq, Repr

/-- The member name of a record. -/
def ZipRecord.arcname : ZipRecord → Path
  | .dirRecord a => a
  | .fileRecord a _ => a

/-- `zip_file.write(absolute, relative)`: `ZipInfo.from_file` stats the
source; a directory becomes a directory record, a regular file becomes a
file record with its streamed content; a missing source raises. -/
def zipWriteRecord (srcFs : Fs) (relative absolute : Path) : Except FsError ZipRecord :=
  match dictLookup srcFs absolute with
  | some FsNode.dir => .ok (ZipRecord.dirRecord relative)
  | some (FsNode.file a) => .ok (ZipRecord.fileRecord relative a.content)
  | none => .error FsError.missingSource

/-- The member loop of `export_as_zip`, with Python's `for`/`else`: the
`completed` variable starts `True`; the `else` clause — which runs exactly
when the loop was NOT broken by cancellation — sets it to `False`. The
returned flag is therefore `true` iff the run was cancelled. -/
def zipLoop (srcFs : Fs) (cancel : Nat → Bool) :
    Nat → List (Path × Path) → Except FsError (List ZipRecord × Bool)
  | _, [] => .ok ([], false)
  | i, (relative, absolute) :: es =>
    if cancel i then .ok ([], true)
    else
      match zipWriteRecord srcFs relative absolute with
      | .ok r =>
        match zipLoop srcFs cancel (i + 1) es with
        | .ok (rs, c) => .ok (r :: rs, c)
        | .error e => .error e
      | .error e => .error e

/-- What `ZipExporter.export_as_zip` produces: the archive parameters it
passes to `zipfile.ZipFile`, the member records written, and its return
value (the `completed` variable). -/
structure ZipResult where
  compression : ZipCompressionMethod
  compresslevel : Option Int
  records : List ZipRecord
  completed : Bool
deriving DecidableEq, Repr

/-- `ZipExporter.export_as_zip`. -/
def export_as_zip (srcFs : Fs) (cancel : Nat → Bool)
    (compressionSetting levelSetting : MoVariant)
    (paths : List (Path × Path)) : Except FsError ZipResult :=
  match zipLoop srcFs cancel 0 paths with
  | .ok (records, completed) =>
    .ok { compression := compression_getter compressionSetting,
          compresslevel := compression_level_getter levelSetting,
          records := records,
          completed := completed }
  | .error e => .error e

/-- The observable outcome of `ZipExporter.export_mod_files_as_zip`:
either the early return on an empty collected map (before
`zipfile.ZipFile(target, "w")`, so no archive file is created), or an export
run together with whether the `N mods exported` message was logged. -/
inductive ZipOutcome where
  | earlyEmpty : ZipOutcome
  | exported (result : ZipResult) (loggedModsExported : Bool) : ZipOutcome
deriving DecidableEq, Repr

/-- `ZipExporter.export_mod_files_as_zip`: collect, early-return on an empty
map, else export and log `N mods exported` iff `export_as_zip` returned a
truthy value. -/
def export_mod_files_as_zip (srcFs : Fs) (cancelCollect cancelZip : Nat → Bool)
    (compressionSetting levelSetting : MoVariant)
    (mods : List Mod) (includeModFolder : Bool) : Except FsError ZipOutcome :=
  let paths := collect_with_cancel cancelCollect mods includeModFolder
  if paths.isEmpty then .ok ZipOutcome.earlyEmpty
  else
    match export_as_zip srcFs cancelZip compressionSetting levelSetting paths with
    | .ok r => .ok (ZipOutcome.exported r r.completed)
    | .error e => .error e

theorem zipWriteRecord_arcname (srcFs : Fs) (relative absolute : Path) (r : ZipRecord)
    (hw : zipWriteRecord srcFs relative absolute = .ok r) : r.arcname = relative := by
  unfold zipWriteRecord at hw
  cases hsrc : dictLookup srcFs absolute with
  | none => rw [hsrc] at hw; exact absurd hw (by simp)
  | some node =>
    rw [hsrc] at hw
    cases node with
    | dir =>
      simp only [Except.ok.injEq] at hw
      subst hw; rfl
    | file a =>
      simp only [Except.ok.injEq] at hw
      subst hw; rfl

theorem zipLoop_no_cancel (srcFs : Fs) (paths : List (Path × Path)) :
    ∀ (i : Nat) (rs : List ZipRecord) (c : Bool),
      zipLoop srcFs (fun _ => false) i paths = .ok (rs, c) →
      rs.length = paths.length ∧
      rs.map ZipRecord.arcname = paths.map Prod.fst ∧
      List.Forall₂ (fun rec e => zipWriteRecord srcFs e.1 e.2 = .ok rec) rs paths ∧
      c = false := by
  induction paths with
  | nil =>
    intro i rs c h
    simp [zipLoop] at h
    simp [h.1, h.2]
  | cons e es ih =>
    intro i rs c h
    obtain ⟨rel, abs⟩ := e
    simp only [zipLoop, if_neg (by simp : ¬ (fun (_ : Nat) => false) i = true)] at h
    cases hw : zipWriteRecord srcFs rel abs with
    | error err => rw [hw] at h; exact absurd h (by simp)
    | ok r =>
      rw [hw] at h
      cases hl : zipLoop srcFs (fun _ => false) (i + 1) es with
      | error err => rw [hl] at h; exact absurd h (by simp)
      | ok rc =>
        obtain ⟨rs', c'⟩ := rc
        rw [hl] at h
        simp only [Except.ok.injEq, Prod.mk.injEq] at h
        obtain ⟨hrs, hc⟩ := h
        obtain ⟨h1, h2, h3, h4⟩ := ih (i + 1) rs' c' hl
        subst hrs hc
        exact ⟨by simp [h1], by simp [h2, zipWriteRecord_arcname srcFs rel abs r hw],
          List.Forall₂.cons hw h3, h4⟩

theorem export_as_zip_no_cancel_spec (srcFs : Fs) (cs ls : MoVariant)
    (paths : List (Path × Path)) (r : ZipResult)
    (hrun : export_as_zip srcFs (fun _ => false) cs ls paths = .ok r) :
    r.records.length = paths.length ∧
    r.records.map ZipRecord.arcname = paths.map Prod.fst ∧
    List.Forall₂ (fun rec e => zipWriteRecord srcFs e.1 e.2 = .ok rec) r.records paths ∧
    r.completed = false := by
  unfold export_as_zip at hrun
  cases hl : zipLoop srcFs (fun _ => false) 0 paths with
  | error err => rw [hl] at hrun; exact absurd hrun (by simp)
  | ok rc =>
    obtain ⟨rs, c⟩ := rc
    rw [hl] at hrun
    simp only [Except.ok.injEq] at hrun
    obtain ⟨h1, h2, h3, h4⟩ := zipLoop_no_cancel srcFs paths 0 rs c hl
    subst hrun
    exact ⟨h1, h2, h3, h4⟩

/-! ### C2 -/

/-- C2: the claim says `export_as_zip` returns a status that is true exactly
when the run completed without cancellation, and the caller reports the
exported-mods outcome on that status. The code's `for`/`else` is inverted:
evaluated on a one-entry plan, an uncancelled, fully written run returns
`false` (so the caller logs nothing), while a cancelled run returns `true`
(so the caller logs `1 mods exported`). -/
theorem c2_completed_flag_inverted_eval :
    (export_as_zip [(["m", "a.txt"], FsNode.file ⟨1, 0, 0, 0⟩)] (fun _ => false)
        (MoVariant.str "ZIP_DEFLATED") (MoVariant.int (-1))
        [(["a.txt"], ["m", "a.txt"])]).map (fun r => (r.records.length, r.completed)) =
      .ok (1, false) ∧
    (export_mod_files_as_zip [(["m", "a.txt"], FsNode.file ⟨1, 0, 0, 0⟩)]
        (fun _ => false) (fun _ => false) (MoVariant.str "ZIP_DEFLATED") (MoVariant.int (-1))
        [⟨["m"], [["a.txt"]]⟩] false).map
        (fun o => match o with
          | ZipOutcome.exported _ logged => some logged
          | ZipOutcome.earlyEmpty => none) =
      .ok (some false) ∧
    (export_as_zip [(["m", "a.txt"], FsNode.file ⟨1, 0, 0, 0⟩)] (fun _ => true)
        (MoVariant.str "ZIP_DEFLATED") (MoVariant.int (-1))
        [(["a.txt"], ["m", "a.txt"])]).map (fun r => (r.records.length, r.completed)) =
      .ok (0, true) := by
  decide

/-! ### C5 -/

/-- C5 counterexample: the claim says directory entries of the plan are never
written to the archive as distinct records, but `zip_file.write` is called on
every entry: a plan holding one directory entry produces one directory
record. -/
theorem c5_counterexample_dir_record_written :
    (export_as_zip [(["m", "d"], FsNode.dir)] (fun _ => false)
        (MoVariant.str "ZIP_DEFLATED") MoVariant.null
        [(["d"], ["m", "d"])]).map (fun r => r.records) =
      .ok [ZipRecord.dirRecord ["d"]] := by
  decide

/-- C5 amended: an uncancelled archive run writes exactly one record per plan
entry, in plan order — file entries as (relative path, content streamed from
the absolute source) and directory entries as explicit directory records
(they are not skipped). -/
theorem c5_zip_records_per_entry (srcFs : Fs) (cs ls : MoVariant)
    (paths : List (Path × Path)) (r : ZipResult)
    (hrun : export_as_zip srcFs (fun _ => false) cs ls paths = .ok r) :
    r.records.length = paths.length ∧
    r.records.map ZipRecord.arcname = paths.map Prod.fst ∧
    List.Forall₂ (fun rec e => zipWriteRecord srcFs e.1 e.2 = .ok rec) r.records paths := by
  obtain ⟨h1, h2, h3, _⟩ := export_as_zip_no_cancel_spec srcFs cs ls paths r hrun
  exact ⟨h1, h2, h3⟩

/-- Witness for C5 amended: a plan with one file and one directory entry. -/
theorem c5_zip_records_per_entry_witness :
    (export_as_zip [(["m", "a.txt"], FsNode.file ⟨7, 0, 0, 0⟩), (["m", "d"], FsNode.dir)]
        (fun _ => false) (MoVariant.str "ZIP_DEFLATED") MoVariant.null
        [(["a.txt"], ["m", "a.txt"]), (["d"], ["m", "d"])] =
      .ok { compression := ZipCompressionMethod.ZIP_DEFLATED, compresslevel := none,
            records := [ZipRecord.fileRecord ["a.txt"] 7, ZipRecord.dirRecord ["d"]],
            completed := false }) ∧
    ([ZipRecord.fileRecord ["a.txt"] 7, ZipRecord.dirRecord ["d"]].length =
        [(["a.txt"], ["m", "a.txt"]), (["d"], ["m", "d"])].length ∧
      [ZipRecord.fileRecord ["a.txt"] 7, ZipRecord.dirRecord ["d"]].map ZipRecord.arcname =
        [(["a.txt"], ["m", "a.txt"]), (["d"], ["m", "d"])].map Prod.fst ∧
      List.Forall₂
        (fun rec e => zipWriteRecord
          [(["m", "a.txt"], FsNode.file ⟨7, 0, 0, 0⟩), (["m", "d"], FsNode.dir)] e.1 e.2 = .ok rec)
        [ZipRecord.fileRecord ["a.txt"] 7, ZipRecord.dirRecord ["d"]]
        [(["a.txt"], ["m", "a.txt"]), (["d"], ["m", "d"])]) :=
  ⟨by decide,
    by
      have h := c5_zip_records_per_entry
        [(["m", "a.txt"], FsNode.file ⟨7, 0, 0, 0⟩), (["m", "d"], FsNode.dir)]
        (MoVariant.str "ZIP_DEFLATED") MoVariant.null
        [(["a.txt"], ["m", "a.txt"]), (["d"], ["m", "d"])]
        { compression := ZipCompressionMethod.ZIP_DEFLATED, compresslevel := none,
          records := [ZipRecord.fileRecord ["a.txt"] 7, ZipRecord.dirRecord ["d"]],
          completed := false }
        (by decide)
      exact h⟩

/-! ### C9 -/

/-- C9 counterexample: level 0 is inside the documented Deflate range 0–9,
but the getter does not pass it through unchanged — it is demoted to `None`
(codec default). -/
theorem c9_counterexample_level_zero_dropped :
    (0 : Int) ≥ 0 ∧ (0 : Int) ≤ 9 ∧
    compression_level_getter (MoVariant.int 0) = none ∧
    compression_level_getter (MoVariant.int 0) ≠ some 0 := by
  decide

/-- C9 amended: a persisted integer level in 1–9 is passed through to the
archive writer unchanged; 0, −1 and any other non-positive integer select the
codec default (`None`); a persisted boolean passes the `isinstance` check
because `bool` subclasses `int`, so `True` is passed through (compresslevel
1) while `False` selects the default; strings and a null value select the
default; an unrecognized persisted codec name is recovered locally by
substituting `ZIP_DEFLATED`, never raising, while recognized names map to
their members; and `export_as_zip` hands exactly the two getter results to
`zipfile.ZipFile`. -/
theorem c9_compression_settings (n : Int) (s : String)
    (h1 : 1 ≤ n) (h9 : n ≤ 9) (hs : zipCompressionMethodByName s = none) :
    compression_level_getter (MoVariant.int n) = some n ∧
    (∀ m : Int, m ≤ 0 → compression_level_getter (MoVariant.int m) = none) ∧
    compression_level_getter (MoVariant.bool true) = some 1 ∧
    compression_level_getter (MoVariant.bool false) = none ∧
    (∀ t : String, compression_level_getter (MoVariant.str t) = none) ∧
    compression_level_getter MoVariant.null = none ∧
    compression_getter (MoVariant.str s) = ZipCompressionMethod.ZIP_DEFLATED ∧
    (∀ (name : String) (m : ZipCompressionMethod),
      zipCompressionMethodByName name = some m →
      compression_getter (MoVariant.str name) = m) ∧
    (∀ (srcFs : Fs) (cancel : Nat → Bool) (cv lv : MoVariant)
        (paths : List (Path × Path)) (r : ZipResult),
      export_as_zip srcFs cancel cv lv paths = .ok r →
      r.compression = compression_getter cv ∧
      r.compresslevel = compression_level_getter lv) := by
  refine ⟨?_, ?_, by decide, by decide, ?_, rfl, ?_, ?_, ?_⟩
  · simp [compression_level_getter, moVariantIntValue]
    omega
  · intro m hm
    simp [compression_level_getter, moVariantIntValue]
    omega
  · intro t; rfl
  · simp [compression_getter, moVariantStr, hs]
  · intro name m hm
    simp [compression_getter, moVariantStr, hm]
  · intro srcFs cancel cv lv paths r hrun
    unfold export_as_zip at hrun
    cases hl : zipLoop srcFs cancel 0 paths with
    | error err => rw [hl] at hrun; exact absurd hrun (by simp)
    | ok rc =>
      rw [hl] at hrun
      simp only [Except.ok.injEq] at hrun
      subst hrun
      exact ⟨rfl, rfl⟩

/-- Witness for C9 amended: level 5 with the unrecognized name `ZIP_FOO`,
plus a persisted `True` passing through as level 1. -/
theorem c9_compression_settings_witness :
    ((1 : Int) ≤ 5 ∧ (5 : Int) ≤ 9 ∧ zipCompressionMethodByName "ZIP_FOO" = none) ∧
    (compression_level_getter (MoVariant.int 5) = some 5 ∧
      compression_level_getter (MoVariant.bool true) = some 1 ∧
      compression_getter (MoVariant.str "ZIP_FOO") = ZipCompressionMethod.ZIP_DEFLATED) :=
  ⟨⟨by decide, by decide, by decide⟩,
    ⟨(c9_compression_settings 5 "ZIP_FOO" (by decide) (by decide) (by decide)).1,
      (c9_compression_settings 5 "ZIP_FOO" (by decide) (by decide) (by decide)).2.2.1,
      (c9_compression_settings 5 "ZIP_FOO" (by decide) (by decide) (by decide)).2.2.2.2.2.2.1⟩⟩

/-! ### Folder exporter (`folder_exporter.py`) -/

/-- `str(relative)`: the relative path string matched against the glob
patterns. -/
def pathStr (p : Path) : String := String.intercalate "/" p

/-- `path.exists()` on the modelled filesystem. -/
def fsExists (fs : Fs) (p : Path) : Bool := (dictLookup fs p).isSome

/-- `absolute.is_dir()` on the modelled filesystem. -/
def fsIsDir (fs : Fs) (p : Path) : Bool :=
  match dictLookup fs p with
  | some FsNode.dir => true
  | _ => false

/-- `Path.mkdir(exist_ok=True)`: create a directory, tolerating an existing
entry. -/
def mkdirExistOk (fs : Fs) (p : Path) : Fs :=
  if fsExists fs p then fs else dictInsert fs p FsNode.dir

/-- `Path.mkdir(exist_ok=True, parents=True)`: create the path and all its
missing ancestors, shortest first. -/
def mkdirAll (fs : Fs) (p : Path) : Fs :=
  (p.inits.filter (fun q => !q.isEmpty)).foldl mkdirExistOk fs

/-- `shutil.copy2(absolute, abs_target_path)`: byte-for-byte copy preserving
modification time and permission bits; the new file lives on the target's
storage volume. -/
def copy2 (srcFs fs : Fs) (src tgt : Path) (tgtVol : Nat) : Except FsError Fs :=
  match dictLookup srcFs src with
  | some (FsNode.file a) =>
    .ok (dictInsert fs tgt (FsNode.file { a with volume := tgtVol }))
  | _ => .error FsError.missingSource

/-- `abs_target_path.hardlink_to(absolute)`: a second directory entry for the
same file data; raises a cross-device `OSError` when source and target are on
different storage volumes; never falls back to copying. -/
def hardlinkTo (srcFs fs : Fs) (src tgt : Path) (tgtVol : Nat) : Except FsError Fs :=
  match dictLookup srcFs src with
  | some (FsNode.file a) =>
    if a.volume ≠ tgtVol then .error FsError.crossVolume
    else .ok (dictInsert fs tgt (FsNode.file a))
  | _ => .error FsError.missingSource

/-- The parameters of one `export_mods_to_folder` run. `fnmatch` is the
`fnmatch.fnmatch(name, pattern)` predicate of the Python standard library,
kept abstract. -/
structure FolderConfig where
  fnmatch : String → String → Bool
  fileFilter : List String
  overwriteExisting : Bool
  hardlinks : Bool
  targetPath : Path
  targetVolume : Nat
  srcFs : Fs

/-- The loop state of `export_mods_to_folder`: the target filesystem, the
`skipped_files` list of (absolute source, absolute target) pairs, the
`overwritten_files` list, and the progress dialog's current value. -/
structure ExportState where
  fs : Fs
  skipped : List (Path × Path)
  overwritten : List Path
  pv : Nat
deriving DecidableEq, Repr

/-- The tail of the export loop body: store the written filesystem and the
updated `overwritten_files` list, or propagate the raised error. -/
def finishWrite (st : ExportState) (newOverwritten : List Path) (w : Except FsError Fs) :
    Except FsError ExportState :=
  match w with
  | .ok fs3 => .ok { st with fs := fs3, overwritten := newOverwritten }
  | .error e => .error e

/-- `any(fnmatch.fnmatch(relative_str, glob) for glob in file_filter)`. -/
def matchesFilter (cfg : FolderConfig) (relative : Path) : Bool :=
  cfg.fileFilter.any (fun g => cfg.fnmatch (pathStr relative) g)

/-- One iteration body of the export loop of `export_mods_to_folder`
(filter check, parent mkdir, directory handling, existing-file policy,
hardlink-or-copy), in source order. -/
def exportStep (cfg : FolderConfig) (st : ExportState) (entry : Path × Path) :
    Except FsError ExportState :=
  let relative := entry.1
  let absolute := entry.2
  let absTarget := cfg.targetPath ++ relative
  if matchesFilter cfg relative then
    .ok { st with skipped := st.skipped ++ [(absolute, absTarget)] }
  else
    let fs1 := mkdirAll st.fs absTarget.dropLast
    if fsIsDir cfg.srcFs absolute then
      .ok { st with fs := mkdirExistOk fs1 absTarget }
    else if fsExists fs1 absTarget && !cfg.overwriteExisting then
      .ok { st with fs := fs1, skipped := st.skipped ++ [(absolute, absTarget)] }
    else
      let hadFile := fsExists fs1 absTarget
      let fs2 := if hadFile then dictErase fs1 absTarget else fs1
      let newOverwritten :=
        if hadFile then st.overwritten ++ [absTarget] else st.overwritten
      finishWrite st newOverwritten
        (if cfg.hardlinks then hardlinkTo cfg.srcFs fs2 absolute absTarget cfg.targetVolume
         else copy2 cfg.srcFs fs2 absolute absTarget cfg.targetVolume)

/-- The export loop with the progress dialog: `cancel i` is
`progress.wasCanceled()` at the start of iteration `i`; `setValue(i)` runs
before the body. The boolean of the result tells whether the loop was broken
by cancellation (in which case the completion message is not shown). -/
def exportLoop (cfg : FolderConfig) (cancel : Nat → Bool) :
    Nat → ExportState → List (Path × Path) → Except FsError (ExportState × Bool)
  | _, st, [] => .ok (st, false)
  | i, st, e :: es =>
    if cancel i then .ok (st, true)
    else
      match exportStep cfg { st with pv := i } e with
      | .ok st' => exportLoop cfg cancel (i + 1) st' es
      | .error err => .error err

/-- The numbers shown by the `Export Complete` message box:
`{mods} mods with {progress.value()} files/folders exported`, plus the
overwritten and skipped counts. -/
structure FolderReport where
  modsCount : Nat
  filesReported : Nat
  overwrittenCount : Nat
  skippedCount : Nat
deriving DecidableEq, Repr

/-- The observable outcome of `export_mods_to_folder`: the early return on an
empty collected map (the target is untouched), a cancelled run (no completion
message), or a completed run with its report. -/
inductive FolderOutcome where
  | earlyEmpty (fs : Fs) : FolderOutcome
  | canceled (st : ExportState) : FolderOutcome
  | completed (st : ExportState) (report : FolderReport) : FolderOutcome
deriving DecidableEq, Repr

/-- `FolderExporter.export_mods_to_folder`, starting from the already
collected `paths` dict. -/
def export_mods_to_folder (cfg : FolderConfig) (cancel : Nat → Bool)
    (fs0 : Fs) (modsCount : Nat) (paths : List (Path × Path)) :
    Except FsError FolderOutcome :=
  if paths.isEmpty then .ok (FolderOutcome.earlyEmpty fs0)
  else
    match exportLoop cfg cancel 0 { fs := fs0, skipped := [], overwritten := [], pv := 0 } paths with
    | .ok (st, true) => .ok (FolderOutcome.canceled { st with pv := paths.length })
    | .ok (st, false) =>
      .ok (FolderOutcome.completed { st with pv := paths.length }
        { modsCount := modsCount, filesReported := st.pv,
          overwrittenCount := st.overwritten.length, skippedCount := st.skipped.length })
    | .error e => .error e

/-- The whole folder export pipeline: collect (with its own cancellation
check), then export. `contents = true` is merged mode
(`include_mod_folder = not contents`). -/
def folder_export_run (cfg : FolderConfig) (cancelCollect cancelExport : Nat → Bool)
    (fs0 : Fs) (mods : List Mod) (contents : Bool) : Except FsError FolderOutcome :=
  export_mods_to_folder cfg cancelExport fs0 mods.length
    (collect_with_cancel cancelCollect mods (!contents))

/-! ### Glob model (`fnmatch` wildcards) -/

/-- Shell-style glob matching as `fnmatch.fnmatch` performs it for the
wildcards used by the plugin's filter patterns: `*` matches any run of
characters, `?` any single character, every other character itself
(character classes `[...]` are not modelled). First argument: pattern;
second: the matched name. -/
def globMatch : List Char → List Char → Bool
  | [], s => s.isEmpty
  | '*' :: ps, s => s.tails.any (fun t => globMatch ps t)
  | _ :: _, [] => false
  | '?' :: ps, _ :: cs => globMatch ps cs
  | p :: ps, c :: cs => (p == c) && globMatch ps cs

/-- `fnmatch.fnmatch(name, pattern)` for the modelled wildcards. -/
def fnmatchModel (name pat : String) : Bool := globMatch pat.data name.data

/-! ### Lemmas on the filesystem primitives -/

theorem fsExists_eq_lookup_isSome (fs : Fs) (p : Path) :
    fsExists fs p = (dictLookup fs p).isSome := rfl

theorem dictLookup_mkdirExistOk_of_some (fs : Fs) (p q : Path) (v : FsNode)
    (h : dictLookup fs q = some v) : dictLookup (mkdirExistOk fs p) q = some v := by
  unfold mkdirExistOk
  by_cases he : fsExists fs p
  · simp [he, h]
  · have hq : ¬ q = p := by
      intro hqp
      subst hqp
      simp [fsExists, h] at he
    simp [he, dictLookup_dictInsert, hq, h]

theorem fsExists_mkdirExistOk_mono (fs : Fs) (p q : Path)
    (h : fsExists fs q = true) : fsExists (mkdirExistOk fs p) q = true := by
  simp only [fsExists, Option.isSome_iff_exists] at h ⊢
  obtain ⟨v, hv⟩ := h
  exact ⟨v, dictLookup_mkdirExistOk_of_some fs p q v hv⟩

theorem fsExists_mkdirExistOk_self (fs : Fs) (p : Path) :
    fsExists (mkdirExistOk fs p) p = true := by
  unfold mkdirExistOk
  by_cases he : fsExists fs p
  · simp [he]
  · have he' : (dictLookup fs p).isSome = false := by
      simpa [fsExists] using he
    simp [fsExists, he', dictLookup_dictInsert]

theorem mkdirExistOk_no_op (fs : Fs) (p : Path) (h : fsExists fs p = true) :
    mkdirExistOk fs p = fs := by
  simp [mkdirExistOk, h]

theorem dictLookup_foldl_mkdir_of_some (l : List Path) :
    ∀ (fs : Fs) (q : Path) (v : FsNode), dictLookup fs q = some v →
      dictLookup (l.foldl mkdirExistOk fs) q = some v := by
  induction l with
  | nil => intro fs q v h; simpa
  | cons x xs ih =>
    intro fs q v h
    exact ih _ _ _ (dictLookup_mkdirExistOk_of_some fs x q v h)

theorem fsExists_foldl_mkdir_mono (l : List Path) :
    ∀ (fs : Fs) (q : Path), fsExists fs q = true →
      fsExists (l.foldl mkdirExistOk fs) q = true := by
  induction l with
  | nil => intro fs q h; simpa
  | cons x xs ih =>
    intro fs q h
    exact ih _ _ (fsExists_mkdirExistOk_mono fs x q h)

theorem fsExists_foldl_mkdir_mem (l : List Path) :
    ∀ (fs : Fs) (q : Path), q ∈ l → fsExists (l.foldl mkdirExistOk fs) q = true := by
  induction l with
  | nil => intro fs q h; simp at h
  | cons x xs ih =>
    intro fs q h
    rcases List.mem_cons.mp h with h | h
    · subst h
      exact fsExists_foldl_mkdir_mono xs _ q (fsExists_mkdirExistOk_self fs q)
    · exact ih _ q h

theorem foldl_mkdir_no_op (l : List Path) :
    ∀ fs : Fs, (∀ q ∈ l, fsExists fs q = true) → l.foldl mkdirExistOk fs = fs := by
  induction l with
  | nil => intro fs _; rfl
  | cons x xs ih =>
    intro fs h
    rw [List.foldl_cons, mkdirExistOk_no_op fs x (h x (by simp))]
    exact ih fs (fun q hq => h q (by simp [hq]))

theorem dictLookup_mkdirAll_of_some (fs : Fs) (p q : Path) (v : FsNode)
    (h : dictLookup fs q = some v) : dictLookup (mkdirAll fs p) q = some v :=
  dictLookup_foldl_mkdir_of_some _ fs q v h

theorem fsExists_mkdirAll_mono (fs : Fs) (p q : Path)
    (h : fsExists fs q = true) : fsExists (mkdirAll fs p) q = true :=
  fsExists_foldl_mkdir_mono _ fs q h

theorem fsExists_mkdirAll_ancestors (fs : Fs) (p q : Path)
    (hq : q ∈ p.inits.filter (fun r => !r.isEmpty)) :
    fsExists (mkdirAll fs p) q = true :=
  fsExists_foldl_mkdir_mem _ fs q hq

theorem mkdirAll_no_op (fs : Fs) (p : Path)
    (h : ∀ q ∈ p.inits.filter (fun r => !r.isEmpty), fsExists fs q = true) :
    mkdirAll fs p = fs :=
  foldl_mkdir_no_op _ fs h

theorem mem_inits_dropLast_ne (p q : Path)
    (hq : q ∈ p.dropLast.inits.filter (fun r => !r.isEmpty)) : q ≠ p := by
  intro hqp
  subst hqp
  obtain ⟨hin, hne⟩ := List.mem_filter.mp hq
  have hpre := (List.mem_inits _ _).mp hin
  have hlen := hpre.length_le
  rw [List.length_dropLast] at hlen
  have hq0 : q ≠ [] := by
    intro h0
    simp [h0] at hne
  have : 0 < q.length := List.length_pos.mpr hq0
  omega

/-! ### Step characterization -/

theorem exportStep_eq_filter (cfg : FolderConfig) (st : ExportState) (e : Path × Path)
    (hm : matchesFilter cfg e.1 = true) :
    exportStep cfg st e =
      .ok { st with skipped := st.skipped ++ [(e.2, cfg.targetPath ++ e.1)] } := by
  unfold exportStep
  simp [hm]

theorem exportStep_eq_dir (cfg : FolderConfig) (st : ExportState) (e : Path × Path)
    (hm : matchesFilter cfg e.1 = false) (hd : fsIsDir cfg.srcFs e.2 = true) :
    exportStep cfg st e =
      .ok { st with
        fs := mkdirExistOk (mkdirAll st.fs (cfg.targetPath ++ e.1).dropLast)
          (cfg.targetPath ++ e.1) } := by
  unfold exportStep
  simp [hm, hd]

theorem exportStep_eq_skip (cfg : FolderConfig) (st : ExportState) (e : Path × Path)
    (hm : matchesFilter cfg e.1 = false) (hd : fsIsDir cfg.srcFs e.2 = false)
    (hex : fsExists (mkdirAll st.fs (cfg.targetPath ++ e.1).dropLast)
      (cfg.targetPath ++ e.1) = true)
    (hov : cfg.overwriteExisting = false) :
    exportStep cfg st e =
      .ok { st with
        fs := mkdirAll st.fs (cfg.targetPath ++ e.1).dropLast,
        skipped := st.skipped ++ [(e.2, cfg.targetPath ++ e.1)] } := by
  unfold exportStep
  simp [hm, hd, hex, hov]

theorem finishWrite_ok (st : ExportState) (now : List Path) (w : Except FsError Fs)
    (st' : ExportState) (h : finishWrite st now w = .ok st') :
    ∃ fs3 : Fs, w = .ok fs3 ∧ st' = { st with fs := fs3, overwritten := now } := by
  cases w with
  | ok fs3 =>
    simp only [finishWrite, Except.ok.injEq] at h
    exact ⟨fs3, rfl, h.symm⟩
  | error er => exact absurd h (by simp [finishWrite])

theorem write_ok_shape (srcFs fs : Fs) (src tgt : Path) (tv : Nat) (hl : Bool) (fs3 : Fs)
    (h : (if hl then hardlinkTo srcFs fs src tgt tv else copy2 srcFs fs src tgt tv) = .ok fs3) :
    ∃ a : FileAttrs, dictLookup srcFs src = some (FsNode.file a) ∧
      (hl = true → a.volume = tv) ∧
      fs3 = dictInsert fs tgt (FsNode.file (if hl then a else { a with volume := tv })) := by
  by_cases hh : hl = true
  · simp only [hh, if_true] at h ⊢
    unfold hardlinkTo at h
    cases hsrc : dictLookup srcFs src with
    | none => rw [hsrc] at h; exact absurd h (by simp)
    | some node =>
      rw [hsrc] at h
      cases node with
      | dir => exact absurd h (by simp)
      | file a =>
        dsimp only at h
        by_cases hv : a.volume = tv
        · rw [if_neg (fun hne => hne hv)] at h
          simp only [Except.ok.injEq] at h
          exact ⟨a, rfl, fun _ => hv, h.symm⟩
        · rw [if_pos hv] at h
          exact absurd h (by simp)
  · have hh' : hl = false := by simpa using hh
    simp only [hh', Bool.false_eq_true, if_false] at h ⊢
    unfold copy2 at h
    cases hsrc : dictLookup srcFs src with
    | none => rw [hsrc] at h; exact absurd h (by simp)
    | some node =>
      rw [hsrc] at h
      cases node with
      | dir => exact absurd h (by simp)
      | file a =>
        dsimp only at h
        simp only [Except.ok.injEq] at h
        exact ⟨a, rfl, by simp, h.symm⟩

theorem exportStep_eq_write (cfg : FolderConfig) (st : ExportState) (e : Path × Path)
    (a : FileAttrs)
    (hm : matchesFilter cfg e.1 = false) (hd : fsIsDir cfg.srcFs e.2 = false)
    (hsrc : dictLookup cfg.srcFs e.2 = some (FsNode.file a))
    (hsk : (fsExists (mkdirAll st.fs (cfg.targetPath ++ e.1).dropLast)
      (cfg.targetPath ++ e.1) && !cfg.overwriteExisting) = false)
    (hvol : cfg.hardlinks = true → a.volume = cfg.targetVolume) :
    exportStep cfg st e =
      .ok { st with
        fs := dictInsert
          (if fsExists (mkdirAll st.fs (cfg.targetPath ++ e.1).dropLast)
              (cfg.targetPath ++ e.1) then
            dictErase (mkdirAll st.fs (cfg.targetPath ++ e.1).dropLast)
              (cfg.targetPath ++ e.1)
          else mkdirAll st.fs (cfg.targetPath ++ e.1).dropLast)
          (cfg.targetPath ++ e.1)
          (FsNode.file (if cfg.hardlinks then a else { a with volume := cfg.targetVolume })),
        overwritten :=
          if fsExists (mkdirAll st.fs (cfg.targetPath ++ e.1).dropLast)
              (cfg.targetPath ++ e.1) then
            st.overwritten ++ [cfg.targetPath ++ e.1]
          else st.overwritten } := by
  unfold exportStep
  by_cases hh : cfg.hardlinks
  · have hv := hvol hh
    simp [hm, hd, hsk, hh, finishWrite, hardlinkTo, hsrc, hv]
  · have hh' : cfg.hardlinks = false := by simpa using hh
    simp [hm, hd, hsk, hh', finishWrite, copy2, hsrc]

theorem exportStep_eq_crossVolume (cfg : FolderConfig) (st : ExportState) (e : Path × Path)
    (a : FileAttrs)
    (hm : matchesFilter cfg e.1 = false) (hd : fsIsDir cfg.srcFs e.2 = false)
    (hsrc : dictLookup cfg.srcFs e.2 = some (FsNode.file a))
    (hsk : (fsExists (mkdirAll st.fs (cfg.targetPath ++ e.1).dropLast)
      (cfg.targetPath ++ e.1) && !cfg.overwriteExisting) = false)
    (hh : cfg.hardlinks = true) (hvol : a.volume ≠ cfg.targetVolume) :
    exportStep cfg st e = .error FsError.crossVolume := by
  unfold exportStep
  simp [hm, hd, hsk, hh, finishWrite, hardlinkTo, hsrc, hvol]

theorem exportStep_cases (cfg : FolderConfig) (st : ExportState) (e : Path × Path)
    (st' : ExportState) (h : exportStep cfg st e = .ok st') :
    (matchesFilter cfg e.1 = true ∧
      st' = { st with skipped := st.skipped ++ [(e.2, cfg.targetPath ++ e.1)] }) ∨
    (matchesFilter cfg e.1 = false ∧ fsIsDir cfg.srcFs e.2 = true ∧
      st' = { st with
        fs := mkdirExistOk (mkdirAll st.fs (cfg.targetPath ++ e.1).dropLast)
          (cfg.targetPath ++ e.1) }) ∨
    (matchesFilter cfg e.1 = false ∧ fsIsDir cfg.srcFs e.2 = false ∧
      fsExists (mkdirAll st.fs (cfg.targetPath ++ e.1).dropLast) (cfg.targetPath ++ e.1) = true ∧
      cfg.overwriteExisting = false ∧
      st' = { st with
        fs := mkdirAll st.fs (cfg.targetPath ++ e.1).dropLast,
        skipped := st.skipped ++ [(e.2, cfg.targetPath ++ e.1)] }) ∨
    (matchesFilter cfg e.1 = false ∧ fsIsDir cfg.srcFs e.2 = false ∧
      (fsExists (mkdirAll st.fs (cfg.targetPath ++ e.1).dropLast) (cfg.targetPath ++ e.1)
          && !cfg.overwriteExisting) = false ∧
      ∃ a : FileAttrs, dictLookup cfg.srcFs e.2 = some (FsNode.file a) ∧
        (cfg.hardlinks = true → a.volume = cfg.targetVolume) ∧
        st' = { st with
          fs := dictInsert
            (if fsExists (mkdirAll st.fs (cfg.targetPath ++ e.1).dropLast)
                (cfg.targetPath ++ e.1) then
              dictErase (mkdirAll st.fs (cfg.targetPath ++ e.1).dropLast)
                (cfg.targetPath ++ e.1)
            else mkdirAll st.fs (cfg.targetPath ++ e.1).dropLast)
            (cfg.targetPath ++ e.1)
            (FsNode.file (if cfg.hardlinks then a else { a with volume := cfg.targetVolume })),
          overwritten :=
            if fsExists (mkdirAll st.fs (cfg.targetPath ++ e.1).dropLast)
                (cfg.targetPath ++ e.1) then
              st.overwritten ++ [cfg.targetPath ++ e.1]
            else st.overwritten }) := by
  by_cases hm : matchesFilter cfg e.1
  · left
    rw [exportStep_eq_filter cfg st e hm] at h
    simp only [Except.ok.injEq] at h
    exact ⟨hm, h.symm⟩
  · have hmf : matchesFilter cfg e.1 = false := by simpa using hm
    by_cases hd : fsIsDir cfg.srcFs e.2
    · right; left
      rw [exportStep_eq_dir cfg st e hmf hd] at h
      simp only [Except.ok.injEq] at h
      exact ⟨hmf, hd, h.symm⟩
    · have hdf : fsIsDir cfg.srcFs e.2 = false := by simpa using hd
      by_cases hsk : (fsExists (mkdirAll st.fs (cfg.targetPath ++ e.1).dropLast)
          (cfg.targetPath ++ e.1) && !cfg.overwriteExisting) = true
      · right; right; left
        have hex : fsExists (mkdirAll st.fs (cfg.targetPath ++ e.1).dropLast)
            (cfg.targetPath ++ e.1) = true := ((Bool.and_eq_true _ _).mp hsk).1
        have hov : cfg.overwriteExisting = false := by
          have h2 := ((Bool.and_eq_true _ _).mp hsk).2
          simpa using h2
        rw [exportStep_eq_skip cfg st e hmf hdf hex hov] at h
        simp only [Except.ok.injEq] at h
        exact ⟨hmf, hdf, hex, hov, h.symm⟩
      · have hskf : (fsExists (mkdirAll st.fs (cfg.targetPath ++ e.1).dropLast)
            (cfg.targetPath ++ e.1) && !cfg.overwriteExisting) = false := by
          simpa using hsk
        right; right; right
        refine ⟨hmf, hdf, hskf, ?_⟩
        unfold exportStep at h
        simp only [hmf, hdf, hskf, Bool.false_eq_true, if_false] at h
        obtain ⟨fs3, hw, hst⟩ := finishWrite_ok _ _ _ _ h
        obtain ⟨a, hsrc, hvol, hfs3⟩ := write_ok_shape _ _ _ _ _ _ _ hw
        exact ⟨a, hsrc, hvol, by rw [hst, hfs3]⟩

/-! ### What a successful step preserves and establishes -/

theorem fsExists_dictInsert (fs : Fs) (t q : Path) (n : FsNode) :
    fsExists (dictInsert fs t n) q = if q = t then true else fsExists fs q := by
  by_cases hq : q = t <;> simp [fsExists, dictLookup_dictInsert, hq]

theorem fsExists_dictErase_of_ne (fs : Fs) (t q : Path) (hq : q ≠ t) :
    fsExists (dictErase fs t) q = fsExists fs q := by
  simp [fsExists, dictLookup_dictErase, hq]

theorem exportStep_pv (cfg : FolderConfig) (st : ExportState) (e : Path × Path)
    (st' : ExportState) (h : exportStep cfg st e = .ok st') : st'.pv = st.pv := by
  rcases exportStep_cases cfg st e st' h with
    ⟨_, h'⟩ | ⟨_, _, h'⟩ | ⟨_, _, _, _, h'⟩ | ⟨_, _, _, a, _, _, h'⟩ <;> subst h' <;> rfl

theorem exportStep_skipped_extends (cfg : FolderConfig) (st : ExportState) (e : Path × Path)
    (st' : ExportState) (h : exportStep cfg st e = .ok st') :
    ∃ tail : List (Path × Path), st'.skipped = st.skipped ++ tail := by
  rcases exportStep_cases cfg st e st' h with
    ⟨_, h'⟩ | ⟨_, _, h'⟩ | ⟨_, _, _, _, h'⟩ | ⟨_, _, _, a, _, _, h'⟩ <;> subst h'
  · exact ⟨_, rfl⟩
  · exact ⟨[], by simp⟩
  · exact ⟨_, rfl⟩
  · exact ⟨[], by simp⟩

theorem exportStep_exists_mono (cfg : FolderConfig) (st : ExportState) (e : Path × Path)
    (st' : ExportState) (h : exportStep cfg st e = .ok st') (q : Path)
    (hq : fsExists st.fs q = true) : fsExists st'.fs q = true := by
  rcases exportStep_cases cfg st e st' h with
    ⟨_, h'⟩ | ⟨_, _, h'⟩ | ⟨_, _, _, _, h'⟩ | ⟨_, _, _, a, _, _, h'⟩ <;> subst h'
  · exact hq
  · exact fsExists_mkdirExistOk_mono _ _ _ (fsExists_mkdirAll_mono _ _ _ hq)
  · exact fsExists_mkdirAll_mono _ _ _ hq
  · show fsExists (dictInsert _ _ _) q = true
    rw [fsExists_dictInsert]
    by_cases hqt : q = cfg.targetPath ++ e.1
    · simp [hqt]
    · simp only [hqt, if_false]
      by_cases hhad : fsExists (mkdirAll st.fs (cfg.targetPath ++ e.1).dropLast)
          (cfg.targetPath ++ e.1) = true
      · simp only [hhad, if_true]
        rw [fsExists_dictErase_of_ne _ _ _ hqt]
        exact fsExists_mkdirAll_mono _ _ _ hq
      · simp only [hhad, if_false]
        exact fsExists_mkdirAll_mono _ _ _ hq

theorem exportStep_lookup_preserve (cfg : FolderConfig) (st : ExportState) (e : Path × Path)
    (st' : ExportState) (h : exportStep cfg st e = .ok st') (q : Path) (v : FsNode)
    (hne : q ≠ cfg.targetPath ++ e.1) (hv : dictLookup st.fs q = some v) :
    dictLookup st'.fs q = some v := by
  rcases exportStep_cases cfg st e st' h with
    ⟨_, h'⟩ | ⟨_, _, h'⟩ | ⟨_, _, _, _, h'⟩ | ⟨_, _, _, a, _, _, h'⟩ <;> subst h'
  · exact hv
  · exact dictLookup_mkdirExistOk_of_some _ _ _ _ (dictLookup_mkdirAll_of_some _ _ _ _ hv)
  · exact dictLookup_mkdirAll_of_some _ _ _ _ hv
  · show dictLookup (dictInsert _ _ _) q = some v
    rw [dictLookup_dictInsert]
    simp only [hne, if_false]
    by_cases hhad : fsExists (mkdirAll st.fs (cfg.targetPath ++ e.1).dropLast)
        (cfg.targetPath ++ e.1) = true
    · simp only [hhad, if_true]
      rw [dictLookup_dictErase]
      simp only [hne, if_false]
      exact dictLookup_mkdirAll_of_some _ _ _ _ hv
    · simp only [hhad, if_false]
      exact dictLookup_mkdirAll_of_some _ _ _ _ hv

/-- What a successful pass of the loop (run with `overwrite_existing = true`)
leaves behind for an entry: the target's ancestor directories exist; a
directory entry's target exists; a file entry's target holds exactly the node
the write produces (the hardlinked attributes, or the copied attributes moved
to the target volume), its source being a regular file on a compatible volume
when hardlinks are requested. -/
def EntrySettled (cfg : FolderConfig) (fs : Fs) (e : Path × Path) : Prop :=
  matchesFilter cfg e.1 = false →
    ((∀ q ∈ (cfg.targetPath ++ e.1).dropLast.inits.filter (fun r => !r.isEmpty),
        fsExists fs q = true) ∧
      (fsIsDir cfg.srcFs e.2 = true → fsExists fs (cfg.targetPath ++ e.1) = true) ∧
      (fsIsDir cfg.srcFs e.2 = false →
        ∃ a : FileAttrs, dictLookup cfg.srcFs e.2 = some (FsNode.file a) ∧
          (cfg.hardlinks = true → a.volume = cfg.targetVolume) ∧
          dictLookup fs (cfg.targetPath ++ e.1) =
            some (FsNode.file
              (if cfg.hardlinks then a else { a with volume := cfg.targetVolume }))))

theorem entrySettled_of_lookup_eq (cfg : FolderConfig) (fs fs' : Fs) (e : Path × Path)
    (heq : ∀ q, dictLookup fs' q = dictLookup fs q) (hs : EntrySettled cfg fs e) :
    EntrySettled cfg fs' e := by
  intro hm
  obtain ⟨h1, h2, h3⟩ := hs hm
  refine ⟨fun q hq => ?_, fun hd => ?_, fun hd => ?_⟩
  · rw [fsExists_eq_lookup_isSome, heq]
    exact h1 q hq
  · rw [fsExists_eq_lookup_isSome, heq]
    exact h2 hd
  · obtain ⟨a, hsrc, hvol, hlook⟩ := h3 hd
    exact ⟨a, hsrc, hvol, by rw [heq]; exact hlook⟩

theorem exportStep_settles (cfg : FolderConfig) (st : ExportState) (e : Path × Path)
    (st' : ExportState) (hover : cfg.overwriteExisting = true)
    (h : exportStep cfg st e = .ok st') : EntrySettled cfg st'.fs e := by
  intro hm
  rcases exportStep_cases cfg st e st' h with
    ⟨h1, h'⟩ | ⟨_, hd, h'⟩ | ⟨_, _, _, hov, h'⟩ | ⟨_, hd, _, a, hsrc, hvol, h'⟩
  · rw [h1] at hm
    exact absurd hm (by simp)
  · subst h'
    refine ⟨fun q hq => ?_, fun _ => ?_, fun hdf => absurd hd (by simp [hdf])⟩
    · exact fsExists_mkdirExistOk_mono _ _ _ (fsExists_mkdirAll_ancestors _ _ _ hq)
    · exact fsExists_mkdirExistOk_self _ _
  · rw [hov] at hover
    exact absurd hover (by simp)
  · subst h'
    refine ⟨fun q hq => ?_, fun hdt => absurd hd (by simp [hdt]), fun _ => ?_⟩
    · have hqt : q ≠ cfg.targetPath ++ e.1 := mem_inits_dropLast_ne _ _ hq
      show fsExists (dictInsert _ _ _) q = true
      rw [fsExists_dictInsert]
      simp only [hqt, if_false]
      by_cases hhad : fsExists (mkdirAll st.fs (cfg.targetPath ++ e.1).dropLast)
          (cfg.targetPath ++ e.1) = true
      · simp only [hhad, if_true]
        rw [fsExists_dictErase_of_ne _ _ _ hqt]
        exact fsExists_mkdirAll_ancestors _ _ _ hq
      · simp only [hhad, if_false]
        exact fsExists_mkdirAll_ancestors _ _ _ hq
    · refine ⟨a, hsrc, hvol, ?_⟩
      show dictLookup (dictInsert _ _ _) _ = _
      rw [dictLookup_dictInsert]
      simp

theorem entrySettled_preserve_step (cfg : FolderConfig) (st : ExportState)
    (e' : Path × Path) (st' : ExportState) (e : Path × Path)
    (h : exportStep cfg st e' = .ok st') (hne : e.1 ≠ e'.1)
    (hs : EntrySettled cfg st.fs e) : EntrySettled cfg st'.fs e := by
  intro hm
  obtain ⟨h1, h2, h3⟩ := hs hm
  have hTne : cfg.targetPath ++ e.1 ≠ cfg.targetPath ++ e'.1 := by
    intro hT
    exact hne (List.append_cancel_left hT)
  refine ⟨fun q hq => ?_, fun hd => ?_, fun hd => ?_⟩
  · exact exportStep_exists_mono cfg st e' st' h q (h1 q hq)
  · exact exportStep_exists_mono cfg st e' st' h _ (h2 hd)
  · obtain ⟨a, hsrc, hvol, hlook⟩ := h3 hd
    exact ⟨a, hsrc, hvol, exportStep_lookup_preserve cfg st e' st' h _ _ hTne hlook⟩

/-! ### Loop-level lemmas -/

theorem exportLoop_cons_ok (cfg : FolderConfig) (cancel : Nat → Bool) (i : Nat)
    (st : ExportState) (e : Path × Path) (es : List (Path × Path)) (st' : ExportState)
    (h : exportLoop cfg cancel i st (e :: es) = .ok (st', false)) :
    cancel i = false ∧
    ∃ st1 : ExportState, exportStep cfg { st with pv := i } e = .ok st1 ∧
      exportLoop cfg cancel (i + 1) st1 es = .ok (st', false) := by
  unfold exportLoop at h
  by_cases hc : cancel i
  · simp [hc] at h
  · simp only [hc, Bool.false_eq_true, if_false] at h
    cases hstep : exportStep cfg { st with pv := i } e with
    | error err => rw [hstep] at h; exact absurd h (by simp)
    | ok st1 =>
      rw [hstep] at h
      exact ⟨by simpa using hc, st1, rfl, h⟩

theorem exportLoop_pv (cfg : FolderConfig) (cancel : Nat → Bool) :
    ∀ (paths : List (Path × Path)) (i : Nat) (st st' : ExportState),
      exportLoop cfg cancel i st paths = .ok (st', false) →
      st'.pv = if paths.isEmpty then st.pv else i + paths.length - 1 := by
  intro paths
  induction paths with
  | nil =>
    intro i st st' h
    simp only [exportLoop, Except.ok.injEq, Prod.mk.injEq] at h
    simp [← h.1]
  | cons e es ih =>
    intro i st st' h
    obtain ⟨hc, st1, hstep, hrest⟩ := exportLoop_cons_ok cfg cancel i st e es st' h
    have hpv := ih (i + 1) st1 st' hrest
    have hpv1 : st1.pv = i := exportStep_pv cfg _ e st1 hstep
    simp only [List.isEmpty_cons, Bool.false_eq_true, if_false, List.length_cons]
    by_cases hes : es.isEmpty
    · have h0 : es.length = 0 := by
        cases es with
        | nil => rfl
        | cons x xs => simp at hes
      simp only [hes, if_true] at hpv
      rw [hpv, hpv1, h0]
      omega
    · simp only [hes, Bool.false_eq_true, if_false] at hpv
      have hlen : 0 < es.length := by
        cases es with
        | nil => simp at hes
        | cons x xs => simp
      rw [hpv]
      omega

theorem exportLoop_preserve_settled (cfg : FolderConfig) (cancel : Nat → Bool) :
    ∀ (paths : List (Path × Path)) (i : Nat) (st st' : ExportState),
      exportLoop cfg cancel i st paths = .ok (st', false) →
      ∀ e : Path × Path, e.1 ∉ paths.map Prod.fst →
        EntrySettled cfg st.fs e → EntrySettled cfg st'.fs e := by
  intro paths
  induction paths with
  | nil =>
    intro i st st' h e _ hs
    simp only [exportLoop, Except.ok.injEq, Prod.mk.injEq] at h
    rw [← h.1]
    exact hs
  | cons e' es ih =>
    intro i st st' h e hnotin hs
    obtain ⟨hc, st1, hstep, hrest⟩ := exportLoop_cons_ok cfg cancel i st e' es st' h
    have hne : e.1 ≠ e'.1 := by
      intro hq
      exact hnotin (by simp [hq])
    have hnotin' : e.1 ∉ es.map Prod.fst := fun hmem => hnotin (by simp [hmem])
    have hs1 : EntrySettled cfg st1.fs e :=
      entrySettled_preserve_step cfg { st with pv := i } e' st1 e hstep hne hs
    exact ih (i + 1) st1 st' hrest e hnotin' hs1

theorem exportLoop_settles (cfg : FolderConfig) (cancel : Nat → Bool)
    (hover : cfg.overwriteExisting = true) :
    ∀ (paths : List (Path × Path)) (i : Nat) (st st' : ExportState),
      (paths.map Prod.fst).Nodup →
      exportLoop cfg cancel i st paths = .ok (st', false) →
      ∀ e ∈ paths, EntrySettled cfg st'.fs e := by
  intro paths
  induction paths with
  | nil => intro i st st' _ h e he; simp at he
  | cons e' es ih =>
    intro i st st' hnodup h e he
    obtain ⟨hc, st1, hstep, hrest⟩ := exportLoop_cons_ok cfg cancel i st e' es st' h
    rw [List.map_cons] at hnodup
    obtain ⟨hhead, htail⟩ := List.nodup_cons.mp hnodup
    rcases List.mem_cons.mp he with heq | hmem
    · subst heq
      have hset := exportStep_settles cfg { st with pv := i } e st1 hover hstep
      exact exportLoop_preserve_settled cfg cancel es (i + 1) st1 st' hrest e hhead hset
    · exact ih (i + 1) st1 st' htail hrest e hmem

/-! ### Running the loop again over a settled target -/

theorem exportLoop_resettle (cfg : FolderConfig) (hover : cfg.overwriteExisting = true)
    (fsRef : Fs) :
    ∀ (paths : List (Path × Path)) (i : Nat) (st : ExportState),
      (∀ e ∈ paths, EntrySettled cfg fsRef e) →
      (∀ q, dictLookup st.fs q = dictLookup fsRef q) →
      ∃ st' : ExportState, exportLoop cfg (fun _ => false) i st paths = .ok (st', false) ∧
        ∀ q, dictLookup st'.fs q = dictLookup fsRef q := by
  intro paths
  induction paths with
  | nil =>
    intro i st _ heq
    exact ⟨st, rfl, heq⟩
  | cons e es ih =>
    intro i st hset heq
    have hsetE : EntrySettled cfg st.fs e :=
      entrySettled_of_lookup_eq cfg fsRef st.fs e heq (hset e (by simp))
    have hsetTail : ∀ e' ∈ es, EntrySettled cfg fsRef e' := fun e' he' => hset e' (by simp [he'])
    by_cases hm : matchesFilter cfg e.1
    · have hstep := exportStep_eq_filter cfg { st with pv := i } e hm
      obtain ⟨st', hloop, heq'⟩ := ih (i + 1)
        { st with pv := i, skipped := st.skipped ++ [(e.2, cfg.targetPath ++ e.1)] }
        hsetTail heq
      refine ⟨st', ?_, heq'⟩
      unfold exportLoop
      rw [if_neg (by simp), hstep]
      exact hloop
    · have hmf : matchesFilter cfg e.1 = false := by simpa using hm
      obtain ⟨h1, h2, h3⟩ := hsetE hmf
      have hno1 : mkdirAll st.fs (cfg.targetPath ++ e.1).dropLast = st.fs :=
        mkdirAll_no_op _ _ h1
      by_cases hd : fsIsDir cfg.srcFs e.2
      · have hno2 : mkdirExistOk st.fs (cfg.targetPath ++ e.1) = st.fs :=
          mkdirExistOk_no_op _ _ (h2 hd)

        have hstep : exportStep cfg { st with pv := i } e = .ok { st with pv := i } := by
          rw [exportStep_eq_dir cfg { st with pv := i } e hmf hd]
          have hfs : mkdirExistOk
              (mkdirAll ({ st with pv := i } : ExportState).fs (cfg.targetPath ++ e.1).dropLast)
              (cfg.targetPath ++ e.1) = ({ st with pv := i } : ExportState).fs := by
            show mkdirExistOk (mkdirAll st.fs (cfg.targetPath ++ e.1).dropLast)
              (cfg.targetPath ++ e.1) = st.fs
            rw [hno1, hno2]
          rw [hfs]
        obtain ⟨st', hloop, heq'⟩ := ih (i + 1) { st with pv := i } hsetTail heq
        refine ⟨st', ?_, heq'⟩
        unfold exportLoop
        rw [if_neg (by simp), hstep]
        exact hloop
      · have hdf : fsIsDir cfg.srcFs e.2 = false := by simpa using hd
        obtain ⟨a, hsrc, hvol, hlook⟩ := h3 hdf
        have hex : fsExists (mkdirAll st.fs (cfg.targetPath ++ e.1).dropLast)
            (cfg.targetPath ++ e.1) = true := by
          rw [hno1, fsExists_eq_lookup_isSome, hlook]
          rfl
        have hskf : (fsExists (mkdirAll st.fs (cfg.targetPath ++ e.1).dropLast)
            (cfg.targetPath ++ e.1) && !cfg.overwriteExisting) = false := by
          simp [hover]
        have hstep := exportStep_eq_write cfg { st with pv := i } e a hmf hdf hsrc hskf hvol
        obtain ⟨st', hloop, heq'⟩ := ih (i + 1)
          { st with
            pv := i,
            fs := dictInsert
              (if fsExists (mkdirAll st.fs (cfg.targetPath ++ e.1).dropLast)
                  (cfg.targetPath ++ e.1) then
                dictErase (mkdirAll st.fs (cfg.targetPath ++ e.1).dropLast)
                  (cfg.targetPath ++ e.1)
              else mkdirAll st.fs (cfg.targetPath ++ e.1).dropLast)
              (cfg.targetPath ++ e.1)
              (FsNode.file (if cfg.hardlinks then a else { a with volume := cfg.targetVolume })),
            overwritten :=
              if fsExists (mkdirAll st.fs (cfg.targetPath ++ e.1).dropLast)
                  (cfg.targetPath ++ e.1) then
                st.overwritten ++ [cfg.targetPath ++ e.1]
              else st.overwritten }
          hsetTail
          (by
            intro q
            show dictLookup (dictInsert
              (if fsExists (mkdirAll st.fs (cfg.targetPath ++ e.1).dropLast)
                  (cfg.targetPath ++ e.1) then
                dictErase (mkdirAll st.fs (cfg.targetPath ++ e.1).dropLast)
                  (cfg.targetPath ++ e.1)
              else mkdirAll st.fs (cfg.targetPath ++ e.1).dropLast)
              (cfg.targetPath ++ e.1)
              (FsNode.file (if cfg.hardlinks then a else { a with volume := cfg.targetVolume })))
              q = dictLookup fsRef q
            rw [dictLookup_dictInsert]
            by_cases hq : q = cfg.targetPath ++ e.1
            · simp only [hq, if_true]
              rw [← heq (cfg.targetPath ++ e.1)]
              exact hlook.symm
            · simp only [hq, if_false]
              rw [if_pos hex, hno1, dictLookup_dictErase]
              simp only [hq, if_false]
              exact heq q)
        refine ⟨st', ?_, heq'⟩
        unfold exportLoop
        rw [if_neg (by simp), hstep]
        exact hloop

/-- The `skipped_files` record the loop appends for an entry when run over an
already settled target with `overwrite_existing = false`: filter-matching
entries and existing files are skipped; directory entries are not. -/
def skipRecordOf (cfg : FolderConfig) (e : Path × Path) : Option (Path × Path) :=
  if matchesFilter cfg e.1 then some (e.2, cfg.targetPath ++ e.1)
  else if fsIsDir cfg.srcFs e.2 then none
  else some (e.2, cfg.targetPath ++ e.1)

theorem exportLoop_skip_all (cfg : FolderConfig) (hov : cfg.overwriteExisting = false) :
    ∀ (paths : List (Path × Path)) (i : Nat) (st : ExportState),
      (∀ e ∈ paths, EntrySettled cfg st.fs e) →
      ∃ pv' : Nat, exportLoop cfg (fun _ => false) i st paths =
        .ok ({ st with
          skipped := st.skipped ++ paths.filterMap (skipRecordOf cfg), pv := pv' }, false) := by
  intro paths
  induction paths with
  | nil =>
    intro i st _
    exact ⟨st.pv, by simp [exportLoop]⟩
  | cons e es ih =>
    intro i st hset
    have hsetE : EntrySettled cfg st.fs e := hset e (by simp)
    have hsetTail : ∀ e' ∈ es, EntrySettled cfg st.fs e' := fun e' he' => hset e' (by simp [he'])
    by_cases hm : matchesFilter cfg e.1
    · have hstep := exportStep_eq_filter cfg { st with pv := i } e hm
      obtain ⟨pv', hloop⟩ := ih (i + 1)
        { st with pv := i, skipped := st.skipped ++ [(e.2, cfg.targetPath ++ e.1)] }
        hsetTail
      refine ⟨pv', ?_⟩
      unfold exportLoop
      rw [if_neg (by simp), hstep]
      dsimp only
      rw [hloop]
      simp [skipRecordOf, hm, List.filterMap_cons, List.append_assoc]
    · have hmf : matchesFilter cfg e.1 = false := by simpa using hm
      obtain ⟨h1, h2, h3⟩ := hsetE hmf
      have hno1 : mkdirAll st.fs (cfg.targetPath ++ e.1).dropLast = st.fs :=
        mkdirAll_no_op _ _ h1
      by_cases hd : fsIsDir cfg.srcFs e.2
      · have hno2 : mkdirExistOk st.fs (cfg.targetPath ++ e.1) = st.fs :=
          mkdirExistOk_no_op _ _ (h2 hd)
        have hstep : exportStep cfg { st with pv := i } e = .ok { st with pv := i } := by
          rw [exportStep_eq_dir cfg { st with pv := i } e hmf hd]
          have hfs : mkdirExistOk
              (mkdirAll ({ st with pv := i } : ExportState).fs (cfg.targetPath ++ e.1).dropLast)
              (cfg.targetPath ++ e.1) = ({ st with pv := i } : ExportState).fs := by
            show mkdirExistOk (mkdirAll st.fs (cfg.targetPath ++ e.1).dropLast)
              (cfg.targetPath ++ e.1) = st.fs
            rw [hno1, hno2]
          rw [hfs]
        obtain ⟨pv', hloop⟩ := ih (i + 1) { st with pv := i } hsetTail
        refine ⟨pv', ?_⟩
        unfold exportLoop
        rw [if_neg (by simp), hstep]
        dsimp only
        rw [hloop]
        simp [skipRecordOf, hmf, hd, List.filterMap_cons, List.append_assoc]
      · have hdf : fsIsDir cfg.srcFs e.2 = false := by simpa using hd
        obtain ⟨a, hsrc, hvol, hlook⟩ := h3 hdf
        have hex : fsExists (mkdirAll st.fs (cfg.targetPath ++ e.1).dropLast)
            (cfg.targetPath ++ e.1) = true := by
          rw [hno1, fsExists_eq_lookup_isSome, hlook]
          rfl
        have hstep : exportStep cfg { st with pv := i } e =
            .ok { st with
              pv := i,
              skipped := st.skipped ++ [(e.2, cfg.targetPath ++ e.1)] } := by
          rw [exportStep_eq_skip cfg { st with pv := i } e hmf hdf
            (by
              show fsExists (mkdirAll st.fs (cfg.targetPath ++ e.1).dropLast)
                (cfg.targetPath ++ e.1) = true
              exact hex) hov]
          have hfs : mkdirAll ({ st with pv := i } : ExportState).fs
              (cfg.targetPath ++ e.1).dropLast = ({ st with pv := i } : ExportState).fs := by
            show mkdirAll st.fs (cfg.targetPath ++ e.1).dropLast = st.fs
            exact hno1
          rw [hfs]
        obtain ⟨pv', hloop⟩ := ih (i + 1)
          { st with pv := i, skipped := st.skipped ++ [(e.2, cfg.targetPath ++ e.1)] }
          hsetTail
        refine ⟨pv', ?_⟩
        unfold exportLoop
        rw [if_neg (by simp), hstep]
        dsimp only
        rw [hloop]
        simp [skipRecordOf, hmf, hdf, List.filterMap_cons, List.append_assoc]

/-! ### `export_mods_to_folder` inversion and construction -/

theorem export_mods_to_folder_completed (cfg : FolderConfig) (cancel : Nat → Bool)
    (fs0 : Fs) (n : Nat) (paths : List (Path × Path)) (st : ExportState) (r : FolderReport)
    (h : export_mods_to_folder cfg cancel fs0 n paths = .ok (FolderOutcome.completed st r)) :
    paths.isEmpty = false ∧
    ∃ stL : ExportState, exportLoop cfg cancel 0 ⟨fs0, [], [], 0⟩ paths = .ok (stL, false) ∧
      st = { stL with pv := paths.length } ∧
      r = { modsCount := n, filesReported := stL.pv,
            overwrittenCount := stL.overwritten.length,
            skippedCount := stL.skipped.length } := by
  unfold export_mods_to_folder at h
  by_cases hp : paths.isEmpty
  · simp [hp] at h
  · have hpf : paths.isEmpty = false := by simpa using hp
    simp only [hpf, Bool.false_eq_true, if_false] at h
    cases hl : exportLoop cfg cancel 0 ⟨fs0, [], [], 0⟩ paths with
    | error err => rw [hl] at h; exact absurd h (by simp)
    | ok pr =>
      obtain ⟨stL, flag⟩ := pr
      rw [hl] at h
      cases flag with
      | true => simp at h
      | false =>
        simp only [Except.ok.injEq, FolderOutcome.completed.injEq] at h
        exact ⟨hpf, stL, rfl, h.1.symm, h.2.symm⟩

theorem export_mods_to_folder_of_loop (cfg : FolderConfig) (cancel : Nat → Bool)
    (fs0 : Fs) (n : Nat) (paths : List (Path × Path)) (stL : ExportState)
    (hp : paths.isEmpty = false)
    (hl : exportLoop cfg cancel 0 ⟨fs0, [], [], 0⟩ paths = .ok (stL, false)) :
    export_mods_to_folder cfg cancel fs0 n paths =
      .ok (FolderOutcome.completed { stL with pv := paths.length }
        { modsCount := n, filesReported := stL.pv,
          overwrittenCount := stL.overwritten.length,
          skippedCount := stL.skipped.length }) := by
  unfold export_mods_to_folder
  simp only [hp, Bool.false_eq_true, if_false]
  rw [hl]

/-! ### C4 -/

/-- C4 (amended): with `overwrite_existing = true` and no cancellation, a
completed folder export run is idempotent: a second identical run completes,
leaves every path bound to the same node, and reports the same
files-exported count. A second run with `overwrite_existing = false`
completes, mutates nothing (the final filesystem is literally the first
run's), and reports as skipped exactly the filter-matching entries and the
file entries — directory entries are re-created with `exist_ok` and are not
counted as skipped. -/
theorem c4_folder_export_idempotence (cfg : FolderConfig) (fs0 : Fs) (n : Nat)
    (paths : List (Path × Path)) (st1 : ExportState) (r1 : FolderReport)
    (hover : cfg.overwriteExisting = true)
    (hnodup : (paths.map Prod.fst).Nodup)
    (hrun1 : export_mods_to_folder cfg (fun _ => false) fs0 n paths =
      .ok (FolderOutcome.completed st1 r1)) :
    (∃ (st2 : ExportState) (r2 : FolderReport),
      export_mods_to_folder cfg (fun _ => false) st1.fs n paths =
        .ok (FolderOutcome.completed st2 r2) ∧
      (∀ q, dictLookup st2.fs q = dictLookup st1.fs q) ∧
      r2.filesReported = r1.filesReported) ∧
    (∃ (st3 : ExportState) (r3 : FolderReport),
      export_mods_to_folder { cfg with overwriteExisting := false } (fun _ => false)
        st1.fs n paths = .ok (FolderOutcome.completed st3 r3) ∧
      st3.fs = st1.fs ∧
      st3.skipped = paths.filterMap (skipRecordOf cfg) ∧
      r3.skippedCount = (paths.filterMap (skipRecordOf cfg)).length) := by
  obtain ⟨hp, stL, hl, hst1, hr1⟩ :=
    export_mods_to_folder_completed cfg (fun _ => false) fs0 n paths st1 r1 hrun1
  have hfs1 : st1.fs = stL.fs := by rw [hst1]
  have hset : ∀ e ∈ paths, EntrySettled cfg st1.fs e := by
    intro e he
    rw [hfs1]
    exact exportLoop_settles cfg (fun _ => false) hover paths 0 _ stL hnodup hl e he
  constructor
  · obtain ⟨stL2, hloop2, heq2⟩ :=
      exportLoop_resettle cfg hover st1.fs paths 0 ⟨st1.fs, [], [], 0⟩ hset (fun q => rfl)
    refine ⟨{ stL2 with pv := paths.length }, _,
      export_mods_to_folder_of_loop cfg (fun _ => false) st1.fs n paths stL2 hp hloop2,
      heq2, ?_⟩
    have hpv1 : stL.pv = if paths.isEmpty then (0 : Nat) else 0 + paths.length - 1 :=
      exportLoop_pv cfg (fun _ => false) paths 0 _ stL hl
    have hpv2 : stL2.pv = if paths.isEmpty then (0 : Nat) else 0 + paths.length - 1 :=
      exportLoop_pv cfg (fun _ => false) paths 0 _ stL2 hloop2
    show stL2.pv = r1.filesReported
    rw [hr1]
    show stL2.pv = stL.pv
    rw [hpv1, hpv2]
  · have hov' : ({ cfg with overwriteExisting := false } : FolderConfig).overwriteExisting
        = false := rfl
    have hset' : ∀ e ∈ paths,
        EntrySettled { cfg with overwriteExisting := false }
          (⟨st1.fs, [], [], 0⟩ : ExportState).fs e := by
      intro e he
      exact hset e he
    obtain ⟨pv', hloop3⟩ :=
      exportLoop_skip_all { cfg with overwriteExisting := false } hov' paths 0
        ⟨st1.fs, [], [], 0⟩ hset'
    have hfn : skipRecordOf { cfg with overwriteExisting := false } = skipRecordOf cfg := rfl
    refine ⟨_, _,
      export_mods_to_folder_of_loop { cfg with overwriteExisting := false } (fun _ => false)
        st1.fs n paths _ hp hloop3, rfl, ?_, ?_⟩
    · show paths.filterMap (skipRecordOf { cfg with overwriteExisting := false }) =
        paths.filterMap (skipRecordOf cfg)
      rw [hfn]
    · show (paths.filterMap (skipRecordOf { cfg with overwriteExisting := false })).length =
        (paths.filterMap (skipRecordOf cfg)).length
      rw [hfn]

/-- The configuration of the C4 counterexample run: no filter, no hardlinks,
target folder `t` on volume 0, and one source mod directory `m/d`. -/
def cfg4 : FolderConfig :=
  { fnmatch := fnmatchModel, fileFilter := [], overwriteExisting := true, hardlinks := false,
    targetPath := ["t"], targetVolume := 0, srcFs := [(["m", "d"], FsNode.dir)] }

/-- C4 counterexample: the claim says a second run with
`overwrite_existing = false` reports every item of the plan as skipped. On a
one-entry plan holding a directory, the first run completes, and the second
run (on the first run's target) completes reporting zero skipped items
although the plan has one item: directory entries are never reported as
skipped. -/
theorem c4_counterexample_dir_not_reported_skipped :
    export_mods_to_folder cfg4 (fun _ => false) [] 1 [(["d"], ["m", "d"])] =
      .ok (FolderOutcome.completed
        ⟨[(["t"], FsNode.dir), (["t", "d"], FsNode.dir)], [], [], 1⟩ ⟨1, 0, 0, 0⟩) ∧
    export_mods_to_folder { cfg4 with overwriteExisting := false } (fun _ => false)
        [(["t"], FsNode.dir), (["t", "d"], FsNode.dir)] 1 [(["d"], ["m", "d"])] =
      .ok (FolderOutcome.completed
        ⟨[(["t"], FsNode.dir), (["t", "d"], FsNode.dir)], [], [], 1⟩ ⟨1, 0, 0, 0⟩) ∧
    ([(["d"], ["m", "d"])] : List (Path × Path)).length = 1 ∧ (0 : Nat) ≠ 1 := by
  decide

/-- The configuration of the C4 witness run: one source file `m/f`. -/
def cfg4w : FolderConfig :=
  { fnmatch := fnmatchModel, fileFilter := [], overwriteExisting := true, hardlinks := false,
    targetPath := ["t"], targetVolume := 0,
    srcFs := [(["m", "f"], FsNode.file ⟨1, 2, 3, 0⟩)] }

/-- Witness for C4 (amended), at a one-file plan. -/
theorem c4_folder_export_idempotence_witness :
    (cfg4w.overwriteExisting = true ∧
      (([(["f"], ["m", "f"])] : List (Path × Path)).map Prod.fst).Nodup ∧
      export_mods_to_folder cfg4w (fun _ => false) [] 1 [(["f"], ["m", "f"])] =
        .ok (FolderOutcome.completed
          ⟨[(["t"], FsNode.dir), (["t", "f"], FsNode.file ⟨1, 2, 3, 0⟩)], [], [], 1⟩
          ⟨1, 0, 0, 0⟩)) ∧
    ((∃ (st2 : ExportState) (r2 : FolderReport),
      export_mods_to_folder cfg4w (fun _ => false)
          (⟨[(["t"], FsNode.dir), (["t", "f"], FsNode.file ⟨1, 2, 3, 0⟩)], [], [], 1⟩ :
            ExportState).fs 1 [(["f"], ["m", "f"])] =
        .ok (FolderOutcome.completed st2 r2) ∧
      (∀ q, dictLookup st2.fs q = dictLookup
        (⟨[(["t"], FsNode.dir), (["t", "f"], FsNode.file ⟨1, 2, 3, 0⟩)], [], [], 1⟩ :
          ExportState).fs q) ∧
      r2.filesReported = (⟨1, 0, 0, 0⟩ : FolderReport).filesReported) ∧
    (∃ (st3 : ExportState) (r3 : FolderReport),
      export_mods_to_folder { cfg4w with overwriteExisting := false } (fun _ => false)
        (⟨[(["t"], FsNode.dir), (["t", "f"], FsNode.file ⟨1, 2, 3, 0⟩)], [], [], 1⟩ :
          ExportState).fs 1 [(["f"], ["m", "f"])] =
        .ok (FolderOutcome.completed st3 r3) ∧
      st3.fs = (⟨[(["t"], FsNode.dir), (["t", "f"], FsNode.file ⟨1, 2, 3, 0⟩)], [], [], 1⟩ :
        ExportState).fs ∧
      st3.skipped = ([(["f"], ["m", "f"])] : List (Path × Path)).filterMap
        (skipRecordOf cfg4w) ∧
      r3.skippedCount = (([(["f"], ["m", "f"])] : List (Path × Path)).filterMap
        (skipRecordOf cfg4w)).length)) :=
  ⟨⟨rfl, by decide, by decide⟩,
    c4_folder_export_idempotence cfg4w [] 1 [(["f"], ["m", "f"])]
      ⟨[(["t"], FsNode.dir), (["t", "f"], FsNode.file ⟨1, 2, 3, 0⟩)], [], [], 1⟩
      ⟨1, 0, 0, 0⟩ rfl (by decide) (by decide)⟩

/-! ### C3 -/

/-- C3 counterexample: the claim extends the filter law to the archive
export, but `export_as_zip` applies no exclusion filter: with the configured
pattern `*.txt`, the relative path `secret.txt` matches, yet the archive run
writes it as a member record. -/
theorem c3_counterexample_zip_ignores_filter :
    fnmatchModel (pathStr ["secret.txt"]) "*.txt" = true ∧
    (export_as_zip [(["m", "secret.txt"], FsNode.file ⟨3, 0, 0, 0⟩)] (fun _ => false)
        (MoVariant.str "ZIP_DEFLATED") MoVariant.null
        [(["secret.txt"], ["m", "secret.txt"])]).map
      (fun r => r.records.map ZipRecord.arcname) = .ok [["secret.txt"]] := by
  decide

/-- C3 (amended): in the folder export, an entry whose relative path string
matches a configured glob pattern is dropped: its loop iteration records it
in `skipped_files` and leaves the target filesystem untouched, writing
nothing; the archive export, by contrast, applies no exclusion filter and
writes one member record for every collected entry. -/
theorem c3_filter_applies_to_folder_only (cfg : FolderConfig) (st : ExportState)
    (rel src : Path) (hmatch : matchesFilter cfg rel = true) :
    exportStep cfg st (rel, src) =
      .ok { st with skipped := st.skipped ++ [(src, cfg.targetPath ++ rel)] } ∧
    (∀ (srcFs : Fs) (cs ls : MoVariant) (paths : List (Path × Path)) (r : ZipResult),
      export_as_zip srcFs (fun _ => false) cs ls paths = .ok r →
      r.records.map ZipRecord.arcname = paths.map Prod.fst) := by
  constructor
  · exact exportStep_eq_filter cfg st (rel, src) hmatch
  · intro srcFs cs ls paths r hr
    exact (export_as_zip_no_cancel_spec srcFs cs ls paths r hr).2.1

/-- The configuration of the C3 witness: exclusion pattern `*.txt`. -/
def cfg3 : FolderConfig :=
  { fnmatch := fnmatchModel, fileFilter := ["*.txt"], overwriteExisting := true,
    hardlinks := false, targetPath := ["t"], targetVolume := 0,
    srcFs := [(["m", "secret.txt"], FsNode.file ⟨3, 0, 0, 0⟩)] }

/-- Witness for C3 (amended): the matching path `secret.txt` is skipped by
the folder step and left unwritten. -/
theorem c3_filter_applies_to_folder_only_witness :
    matchesFilter cfg3 ["secret.txt"] = true ∧
    (exportStep cfg3 ⟨[], [], [], 0⟩ (["secret.txt"], ["m", "secret.txt"]) =
      .ok { (⟨[], [], [], 0⟩ : ExportState) with
        skipped := (⟨[], [], [], 0⟩ : ExportState).skipped ++
          [(["m", "secret.txt"], cfg3.targetPath ++ ["secret.txt"])] } ∧
    (∀ (srcFs : Fs) (cs ls : MoVariant) (paths : List (Path × Path)) (r : ZipResult),
      export_as_zip srcFs (fun _ => false) cs ls paths = .ok r →
      r.records.map ZipRecord.arcname = paths.map Prod.fst)) :=
  ⟨by decide,
    c3_filter_applies_to_folder_only cfg3 ⟨[], [], [], 0⟩ ["secret.txt"] ["m", "secret.txt"]
      (by decide)⟩

/-! ### C7 -/

/-- C7: for a non-filtered file entry (with `overwrite_existing = true`):
with hardlinks requested and the source on a different storage volume the
step raises `CrossVolumeError`; a step error propagates out of the export
loop unhandled (no silent fallback to copying); with hardlinks on the same
volume the target becomes a hardlink sharing the source's attributes; and
without hardlinks the target becomes a copy preserving content, modification
time and permissions. -/
theorem c7_hardlink_error_surfaced (cfg : FolderConfig) (st st₀ : ExportState)
    (rel src : Path) (a : FileAttrs)
    (hm : matchesFilter cfg rel = false)
    (hsrc : dictLookup cfg.srcFs src = some (FsNode.file a))
    (hover : cfg.overwriteExisting = true) :
    (cfg.hardlinks = true → a.volume ≠ cfg.targetVolume →
      exportStep cfg st (rel, src) = .error FsError.crossVolume) ∧
    (∀ (cancel : Nat → Bool) (i : Nat) (es : List (Path × Path)) (err : FsError),
      cancel i = false → exportStep cfg { st₀ with pv := i } (rel, src) = .error err →
      exportLoop cfg cancel i st₀ ((rel, src) :: es) = .error err) ∧
    (cfg.hardlinks = true → a.volume = cfg.targetVolume →
      ∃ st' : ExportState, exportStep cfg st (rel, src) = .ok st' ∧
        dictLookup st'.fs (cfg.targetPath ++ rel) = some (FsNode.file a)) ∧
    (cfg.hardlinks = false →
      ∃ st' : ExportState, exportStep cfg st (rel, src) = .ok st' ∧
        dictLookup st'.fs (cfg.targetPath ++ rel) =
          some (FsNode.file { a with volume := cfg.targetVolume })) := by
  have hd : fsIsDir cfg.srcFs src = false := by simp [fsIsDir, hsrc]
  have hsk : (fsExists (mkdirAll st.fs (cfg.targetPath ++ rel).dropLast)
      (cfg.targetPath ++ rel) && !cfg.overwriteExisting) = false := by
    simp [hover]
  refine ⟨?_, ?_, ?_, ?_⟩
  · intro hh hvol
    exact exportStep_eq_crossVolume cfg st (rel, src) a hm hd hsrc hsk hh hvol
  · intro cancel i es err hc hst
    unfold exportLoop
    rw [if_neg (by simp [hc]), hst]
  · intro hh hvol
    refine ⟨_, exportStep_eq_write cfg st (rel, src) a hm hd hsrc hsk (fun _ => hvol), ?_⟩
    show dictLookup (dictInsert _ _ _) _ = _
    rw [dictLookup_dictInsert]
    simp [hh]
  · intro hh
    refine ⟨_, exportStep_eq_write cfg st (rel, src) a hm hd hsrc hsk
      (fun hc => absurd hc (by simp [hh])), ?_⟩
    show dictLookup (dictInsert _ _ _) _ = _
    rw [dictLookup_dictInsert]
    simp [hh]

/-- The configuration of the C7 witness: hardlinks requested, source file on
volume 5, target on volume 0. -/
def cfg7 : FolderConfig :=
  { fnmatch := fnmatchModel, fileFilter := [], overwriteExisting := true, hardlinks := true,
    targetPath := ["t"], targetVolume := 0,
    srcFs := [(["m", "f"], FsNode.file ⟨9, 8, 7, 5⟩)] }

/-- Witness for C7: the cross-volume hardlink raises, and the loop surfaces
the error. -/
theorem c7_hardlink_error_surfaced_witness :
    (matchesFilter cfg7 ["f"] = false ∧
      dictLookup cfg7.srcFs ["m", "f"] = some (FsNode.file ⟨9, 8, 7, 5⟩) ∧
      cfg7.overwriteExisting = true) ∧
    ((cfg7.hardlinks = true → (⟨9, 8, 7, 5⟩ : FileAttrs).volume ≠ cfg7.targetVolume →
      exportStep cfg7 ⟨[], [], [], 0⟩ (["f"], ["m", "f"]) = .error FsError.crossVolume) ∧
    (∀ (cancel : Nat → Bool) (i : Nat) (es : List (Path × Path)) (err : FsError),
      cancel i = false →
      exportStep cfg7 { (⟨[], [], [], 7⟩ : ExportState) with pv := i } (["f"], ["m", "f"]) =
        .error err →
      exportLoop cfg7 cancel i ⟨[], [], [], 7⟩ ((["f"], ["m", "f"]) :: es) = .error err) ∧
    (cfg7.hardlinks = true → (⟨9, 8, 7, 5⟩ : FileAttrs).volume = cfg7.targetVolume →
      ∃ st' : ExportState, exportStep cfg7 ⟨[], [], [], 0⟩ (["f"], ["m", "f"]) = .ok st' ∧
        dictLookup st'.fs (cfg7.targetPath ++ ["f"]) =
          some (FsNode.file ⟨9, 8, 7, 5⟩)) ∧
    (cfg7.hardlinks = false →
      ∃ st' : ExportState, exportStep cfg7 ⟨[], [], [], 0⟩ (["f"], ["m", "f"]) = .ok st' ∧
        dictLookup st'.fs (cfg7.targetPath ++ ["f"]) =
          some (FsNode.file { (⟨9, 8, 7, 5⟩ : FileAttrs) with volume := cfg7.targetVolume }))) :=
  ⟨⟨by decide, by decide, rfl⟩,
    c7_hardlink_error_surfaced cfg7 ⟨[], [], [], 0⟩ ⟨[], [], [], 7⟩ ["f"] ["m", "f"]
      ⟨9, 8, 7, 5⟩ (by decide) (by decide) rfl⟩

/-! ### C10 -/

theorem collectLoop_cancel_empty (cancel : Nat → Bool) (inc : Bool) :
    ∀ (mods : List Mod) (i : Nat) (ps : List (Path × Path)),
      (∃ j : Nat, i ≤ j ∧ j < i + mods.length ∧ cancel j = true) →
      collectLoop cancel inc i ps mods = [] := by
  intro mods
  induction mods with
  | nil =>
    intro i ps ⟨j, h1, h2, _⟩
    simp at h2
    omega
  | cons m ms ih =>
    intro i ps ⟨j, h1, h2, hc⟩
    unfold collectLoop
    by_cases hci : cancel i
    · simp [hci]
    · rw [if_neg (by simp [hci])]
      apply ih
      have hji : j ≠ i := by
        intro hji
        subst hji
        rw [hc] at hci
        exact hci rfl
      refine ⟨j, by omega, ?_, hc⟩
      simp only [List.length_cons] at h2
      omega

/-- C10: a cancellation that fires during the collection phase makes
`collect_mod_file_paths` return the empty map no matter how many mods were
already walked, and in consequence the folder export returns its early-empty
outcome with the target filesystem untouched, and the zip export returns
before an archive is created. -/
theorem c10_cancel_collection_aborts (mods : List Mod) (cancelC : Nat → Bool)
    (includeModFolder : Bool) (j : Nat)
    (hj : j < mods.length) (hc : cancelC j = true) :
    collect_with_cancel cancelC mods includeModFolder = [] ∧
    (∀ (cfg : FolderConfig) (cancelE : Nat → Bool) (fs0 : Fs),
      export_mods_to_folder cfg cancelE fs0 mods.length
        (collect_with_cancel cancelC mods includeModFolder) =
        .ok (FolderOutcome.earlyEmpty fs0)) ∧
    (∀ (srcFs : Fs) (cancelZ : Nat → Bool) (cs ls : MoVariant),
      export_mod_files_as_zip srcFs cancelC cancelZ cs ls mods includeModFolder =
        .ok ZipOutcome.earlyEmpty) := by
  have hempty : collect_with_cancel cancelC mods includeModFolder = [] :=
    collectLoop_cancel_empty cancelC includeModFolder mods 0 [] ⟨j, by omega, by omega, hc⟩
  refine ⟨hempty, ?_, ?_⟩
  · intro cfg cancelE fs0
    rw [hempty]
    unfold export_mods_to_folder
    simp
  · intro srcFs cancelZ cs ls
    unfold export_mod_files_as_zip
    rw [hempty]
    simp

/-- Witness for C10: one mod, cancellation firing at once. -/
theorem c10_cancel_collection_aborts_witness :
    ((0 : Nat) < ([(⟨["m"], [["a.txt"]]⟩ : Mod)] : List Mod).length ∧
      (fun _ : Nat => true) 0 = true) ∧
    (collect_with_cancel (fun _ => true) [⟨["m"], [["a.txt"]]⟩] false = [] ∧
      (∀ (cfg : FolderConfig) (cancelE : Nat → Bool) (fs0 : Fs),
        export_mods_to_folder cfg cancelE fs0
          ([(⟨["m"], [["a.txt"]]⟩ : Mod)] : List Mod).length
          (collect_with_cancel (fun _ => true) [⟨["m"], [["a.txt"]]⟩] false) =
          .ok (FolderOutcome.earlyEmpty fs0)) ∧
      (∀ (srcFs : Fs) (cancelZ : Nat → Bool) (cs ls : MoVariant),
        export_mod_files_as_zip srcFs (fun _ => true) cancelZ cs ls
          [⟨["m"], [["a.txt"]]⟩] false = .ok ZipOutcome.earlyEmpty)) :=
  ⟨⟨by decide, rfl⟩,
    c10_cancel_collection_aborts [⟨["m"], [["a.txt"]]⟩] (fun _ => true) false 0
      (by decide) rfl⟩

/-! ### Display operations and the empty-selection guard (C6) -/

/-- Python truthiness of a generator object: a generator is an object, hence
truthy, independently of whether it would yield any element. The markdown
exporters' guard `if not active_mods:` tests this, not emptiness. -/
def generatorTruthy {α : Type} (mods : List α) : Bool := true

/-- `any(True for _ in mods)`: whether the iterable yields any element — the
guard used by the folder and zip exporters. -/
def anyTrueFor {α : Type} (mods : List α) : Bool := !mods.isEmpty

/-- What a `display` invocation observably does before/instead of exporting. -/
inductive DisplayOutcome where
  | infoNoActiveMods : DisplayOutcome
  | dialogCanceled : DisplayOutcome
  | wroteFile (target : String) (lines : List String) : DisplayOutcome
  | copiedToClipboard (text : String) (reportedCount : Nat) : DisplayOutcome
  | proceededToExport : DisplayOutcome
deriving DecidableEq, Repr

/-- `MarkdownExporter.display`: guard `if not active_mods:` on the generator
object, then the save dialog, then `write_markdown_modlist_to_file` (which
opens the target for writing, creating it). -/
def markdown_display (mods : List MdMod) (nexusGameName : String)
    (chosenTarget : Option String) : DisplayOutcome :=
  if !(generatorTruthy mods) then DisplayOutcome.infoNoActiveMods
  else
    match chosenTarget with
    | none => DisplayOutcome.dialogCanceled
    | some t => DisplayOutcome.wroteFile t (markdown_modlist nexusGameName mods)

/-- `MarkdownToClip.display`: the same generator guard, then
`copy_markdown_modlist_to_clip`, which joins the lines into the clipboard and
reports `{len(lines)} mod infos copied`. -/
def markdown_to_clip_display (mods : List MdMod) (nexusGameName : String) : DisplayOutcome :=
  if !(generatorTruthy mods) then DisplayOutcome.infoNoActiveMods
  else
    DisplayOutcome.copiedToClipboard (String.join (markdown_modlist nexusGameName mods))
      (markdown_modlist nexusGameName mods).length

/-- The guard of `FolderExporter.display`:
`if not any(True for _ in self.active_mods()):`. -/
def folder_display_guard (mods : List Mod) : DisplayOutcome :=
  if !(anyTrueFor mods) then DisplayOutcome.infoNoActiveMods
  else DisplayOutcome.proceededToExport

/-- The guard of `ZipExporter.display` (same shape as the folder one). -/
def zip_display_guard (mods : List Mod) : DisplayOutcome :=
  if !(anyTrueFor mods) then DisplayOutcome.infoNoActiveMods
  else DisplayOutcome.proceededToExport

/-- C6: the folder and zip exporters abort an empty selection with the
`No active mods!` message before any I/O, but the markdown exporters test the
generator object itself — always truthy — so with zero active mods they do
not show the message: the file variant proceeds to the save dialog and
creates an (empty) file, and the clipboard variant overwrites the clipboard
and reports `0 mod infos copied`. -/
theorem c6_markdown_empty_guard_never_fires :
    folder_display_guard [] = DisplayOutcome.infoNoActiveMods ∧
    zip_display_guard [] = DisplayOutcome.infoNoActiveMods ∧
    markdown_display [] "game" (some "list.md") = DisplayOutcome.wroteFile "list.md" [] ∧
    markdown_display [] "game" (some "list.md") ≠ DisplayOutcome.infoNoActiveMods ∧
    markdown_to_clip_display [] "game" = DisplayOutcome.copiedToClipboard "" 0 ∧
    markdown_to_clip_display [] "game" ≠ DisplayOutcome.infoNoActiveMods := by
  refine ⟨rfl, rfl, rfl, by decide, ?_, by decide⟩
  show DisplayOutcome.copiedToClipboard (String.join []) 0 =
    DisplayOutcome.copiedToClipboard "" 0
  rfl

end MoExporter
